import Mathlib

/-
Verification of the RepoRanger static-analysis core: a shallow embedding of
the Python source-code parser, dependency resolver, dependency-graph engine,
quality analyzer and diagram renderer (src/tools/parser.py, src/agents/steward.py,
src/tools/diagram.py), together with theorems about the embedded functions.

Strings are modelled by Lean `String`; the Python string helpers used by the
source (split, strip, startswith, `in`, replace, join, sorted) are re-implemented
below as structurally recursive functions over `String.data` so that concrete
evaluation is possible inside the kernel.  File-system paths are modelled as
repo-root-relative strings, so `Path.relative_to(repo_root)` is the identity in
this model and `str.split('/')` stands for `Path.parts`.
-/

/- ---------------------------------------------------------------- -/
/- Python string primitives                                          -/
/- ---------------------------------------------------------------- -/

/-- Whitespace characters stripped by Python `str.strip()`. -/
def isSpaceChar (c : Char) : Bool :=
  c = ' ' || c = '\t' || c = '\n' || c = '\r' || c = '\x0b' || c = '\x0c'

/-- `str.split(sep)` on character lists: splitting `""` yields `[""]`,
and n separators yield n+1 groups, as in Python. -/
def splitOnChar (sep : Char) : List Char → List (List Char)
  | [] => [[]]
  | c :: rest =>
    let r := splitOnChar sep rest
    if c = sep then [] :: r
    else
      match r with
      | [] => [[c]]
      | g :: gs => (c :: g) :: gs

/-- Python `str.split(sep)` for a one-character separator. -/
def pySplit (sep : Char) (s : String) : List String :=
  (splitOnChar sep s.data).map String.mk

/-- Python `str.strip()`. -/
def pyStrip (s : String) : String :=
  String.mk (((s.data.dropWhile (fun c => isSpaceChar c)).reverse.dropWhile
    (fun c => isSpaceChar c)).reverse)

/-- Prefix test on character lists. -/
def isPrefixChars : List Char → List Char → Bool
  | [], _ => true
  | _ :: _, [] => false
  | p :: ps, c :: cs => p = c && isPrefixChars ps cs

/-- Python `str.startswith(pre)`. -/
def pyStartsWith (s pre : String) : Bool :=
  isPrefixChars pre.data s.data

/-- Substring containment on character lists (Python `pat in s`). -/
def containsChars (pat : List Char) : List Char → Bool
  | [] => pat.isEmpty
  | c :: cs => isPrefixChars pat (c :: cs) || containsChars pat cs

/-- Python `pat in s` for strings. -/
def pyContains (s pat : String) : Bool :=
  containsChars pat.data s.data

/-- Left-to-right non-overlapping replacement, the semantics of Python
`str.replace`.  The explicit fuel (initialised to the string length, an upper
bound on the number of scan steps for non-empty patterns) keeps the recursion
structural; the source never calls `replace` with an empty pattern. -/
def replaceCharsAux (pat repl : List Char) : Nat → List Char → List Char
  | 0, s => s
  | _ + 1, [] => []
  | fuel + 1, c :: cs =>
    if isPrefixChars pat (c :: cs) then
      repl ++ replaceCharsAux pat repl fuel ((c :: cs).drop pat.length)
    else
      c :: replaceCharsAux pat repl fuel cs

/-- Python `s.replace(pat, repl)`. -/
def pyReplace (s pat repl : String) : String :=
  String.mk (replaceCharsAux pat.data repl.data s.data.length s.data)

/-- Python `sep.join(parts)`. -/
def pyJoin (sep : String) (parts : List String) : String :=
  String.mk (((parts.map String.data).intersperse sep.data).flatten)

/-- Lexicographic comparison of character lists by code point, the order
Python `sorted` uses on strings. -/
def lexLeChars : List Char → List Char → Bool
  | [], _ => true
  | _ :: _, [] => false
  | a :: as, b :: bs => if a = b then lexLeChars as bs else decide (a < b)

/-- String order used by Python `sorted` on strings. -/
def strLe (a b : String) : Bool :=
  lexLeChars a.data b.data

/-- Python `sorted(list_of_strings)`. -/
def pySortStr (l : List String) : List String :=
  List.insertionSort (fun a b => strLe a b = true) l

/- ---------------------------------------------------------------- -/
/- Data model (parser.py dataclasses)                                -/
/- ---------------------------------------------------------------- -/

/-- `ImportType` enum from parser.py. -/
inductive ImportType where
  | absolute
  | relative
  | wildcard
  | aliased
  | conditional
  deriving DecidableEq

/-- `ImportStatement` dataclass from parser.py (source position retains only
the line number; the unparsed raw statement text is omitted). -/
structure ImportStatement where
  module : Option String
  names : List String
  aliases : List (String × String)
  level : Nat
  import_type : ImportType
  line_number : Nat
  is_future_import : Bool
  parent_node_type : Option String
  deriving DecidableEq

/-- `FunctionInfo` dataclass (fields used by the claims). -/
structure FunctionInfo where
  name : String
  is_async : Bool
  complexity : Nat
  deriving DecidableEq

/-- `ClassInfo` dataclass (fields used by the claims). -/
structure ClassInfo where
  name : String
  methods : List String
  deriving DecidableEq

/-- `CodeMetrics` dataclass (integer fields; the floating-point
`avg_function_length` is omitted). -/
structure CodeMetrics where
  total_lines : Nat
  code_lines : Nat
  comment_lines : Nat
  blank_lines : Nat
  docstring_lines : Nat
  function_count : Nat
  class_count : Nat
  import_count : Nat
  cyclomatic_complexity : Nat
  deriving DecidableEq

/-- Modelled Python AST node.  Each constructor mirrors the `ast` node kinds
the analyzer inspects; every other node kind is `otherNode`.  Children lists
contain all direct child nodes in the sense of `ast.iter_child_nodes`
(for `ast.If` the test, body and orelse statements; for `ast.Try` the body,
handlers, orelse and finalbody, where the handlers appear as `exceptHandler`
nodes).  `boolOp` records the operand count, `compClause` the number of
filter `if`s of one comprehension clause. -/
inductive PyNode where
  | importFrom (module : Option String) (alias_list : List (String × Option String))
      (level : Nat) (line_number : Nat)
  | importPlain (alias_list : List (String × Option String)) (line_number : Nat)
  | funcDef (name : String) (is_async : Bool) (body : List PyNode)
  | classDef (name : String) (body : List PyNode)
  | assignStmt (targets : List String) (children : List PyNode)
  | annAssignStmt (target : Option String) (children : List PyNode)
  | ifStmt (children : List PyNode)
  | tryStmt (children : List PyNode)
  | whileStmt (children : List PyNode)
  | forStmt (children : List PyNode)
  | asyncForStmt (children : List PyNode)
  | exceptHandler (children : List PyNode)
  | boolOp (operand_count : Nat) (children : List PyNode)
  | compClause (filter_count : Nat) (children : List PyNode)
  | nameExpr (id : String)
  | attrExpr (base : Option String) (children : List PyNode)
  | otherNode (children : List PyNode)

/-- Direct children of a node (`ast.iter_child_nodes`). -/
def pyChildren : PyNode → List PyNode
  | .importFrom _ _ _ _ => []
  | .importPlain _ _ => []
  | .funcDef _ _ body => body
  | .classDef _ body => body
  | .assignStmt _ cs => cs
  | .annAssignStmt _ cs => cs
  | .ifStmt cs => cs
  | .tryStmt cs => cs
  | .whileStmt cs => cs
  | .forStmt cs => cs
  | .asyncForStmt cs => cs
  | .exceptHandler cs => cs
  | .boolOp _ cs => cs
  | .compClause _ cs => cs
  | .nameExpr _ => []
  | .attrExpr _ cs => cs
  | .otherNode cs => cs

/-- Sum of a per-node weight over a forest, visiting every node reachable via
its children (the accumulation pattern of `ast.walk`-based counters in
parser.py; the visit order is irrelevant to a sum).  Nodes without child
nodes contribute only their own weight. -/
def node_weight_sum (w : PyNode → Nat) : List PyNode → Nat
  | [] => 0
  | .importFrom m al lv ln :: rest => w (.importFrom m al lv ln) + node_weight_sum w rest
  | .importPlain al ln :: rest => w (.importPlain al ln) + node_weight_sum w rest
  | .nameExpr id :: rest => w (.nameExpr id) + node_weight_sum w rest
  | .funcDef nm a body :: rest =>
    w (.funcDef nm a body) + node_weight_sum w body + node_weight_sum w rest
  | .classDef nm body :: rest =>
    w (.classDef nm body) + node_weight_sum w body + node_weight_sum w rest
  | .assignStmt ts cs :: rest =>
    w (.assignStmt ts cs) + node_weight_sum w cs + node_weight_sum w rest
  | .annAssignStmt t cs :: rest =>
    w (.annAssignStmt t cs) + node_weight_sum w cs + node_weight_sum w rest
  | .ifStmt cs :: rest => w (.ifStmt cs) + node_weight_sum w cs + node_weight_sum w rest
  | .tryStmt cs :: rest => w (.tryStmt cs) + node_weight_sum w cs + node_weight_sum w rest
  | .whileStmt cs :: rest =>
    w (.whileStmt cs) + node_weight_sum w cs + node_weight_sum w rest
  | .forStmt cs :: rest => w (.forStmt cs) + node_weight_sum w cs + node_weight_sum w rest
  | .asyncForStmt cs :: rest =>
    w (.asyncForStmt cs) + node_weight_sum w cs + node_weight_sum w rest
  | .exceptHandler cs :: rest =>
    w (.exceptHandler cs) + node_weight_sum w cs + node_weight_sum w rest
  | .boolOp nv cs :: rest =>
    w (.boolOp nv cs) + node_weight_sum w cs + node_weight_sum w rest
  | .compClause nf cs :: rest =>
    w (.compClause nf cs) + node_weight_sum w cs + node_weight_sum w rest
  | .attrExpr b cs :: rest =>
    w (.attrExpr b cs) + node_weight_sum w cs + node_weight_sum w rest
  | .otherNode cs :: rest =>
    w (.otherNode cs) + node_weight_sum w cs + node_weight_sum w rest

/-- Concatenation of a per-node item list over a forest, visiting every node
reachable via its children (the collection pattern of `ast.walk`-based
extractors in parser.py). -/
def node_collect {α : Type} (f : PyNode → List α) : List PyNode → List α
  | [] => []
  | .importFrom m al lv ln :: rest => f (.importFrom m al lv ln) ++ node_collect f rest
  | .importPlain al ln :: rest => f (.importPlain al ln) ++ node_collect f rest
  | .nameExpr id :: rest => f (.nameExpr id) ++ node_collect f rest
  | .funcDef nm a body :: rest =>
    f (.funcDef nm a body) ++ node_collect f body ++ node_collect f rest
  | .classDef nm body :: rest =>
    f (.classDef nm body) ++ node_collect f body ++ node_collect f rest
  | .assignStmt ts cs :: rest =>
    f (.assignStmt ts cs) ++ node_collect f cs ++ node_collect f rest
  | .annAssignStmt t cs :: rest =>
    f (.annAssignStmt t cs) ++ node_collect f cs ++ node_collect f rest
  | .ifStmt cs :: rest => f (.ifStmt cs) ++ node_collect f cs ++ node_collect f rest
  | .tryStmt cs :: rest => f (.tryStmt cs) ++ node_collect f cs ++ node_collect f rest
  | .whileStmt cs :: rest => f (.whileStmt cs) ++ node_collect f cs ++ node_collect f rest
  | .forStmt cs :: rest => f (.forStmt cs) ++ node_collect f cs ++ node_collect f rest
  | .asyncForStmt cs :: rest =>
    f (.asyncForStmt cs) ++ node_collect f cs ++ node_collect f rest
  | .exceptHandler cs :: rest =>
    f (.exceptHandler cs) ++ node_collect f cs ++ node_collect f rest
  | .boolOp nv cs :: rest => f (.boolOp nv cs) ++ node_collect f cs ++ node_collect f rest
  | .compClause nf cs :: rest =>
    f (.compClause nf cs) ++ node_collect f cs ++ node_collect f rest
  | .attrExpr b cs :: rest => f (.attrExpr b cs) ++ node_collect f cs ++ node_collect f rest
  | .otherNode cs :: rest => f (.otherNode cs) ++ node_collect f cs ++ node_collect f rest

/-- Per-node contribution to cyclomatic complexity, from
`_calculate_cyclomatic_complexity`: if/while/for/async-for and exception
handlers add 1, a boolean operator adds its operand count minus 1, and a
comprehension clause adds 1 plus its number of filter conditions. -/
def cc_weight : PyNode → Nat
  | .ifStmt _ => 1
  | .whileStmt _ => 1
  | .forStmt _ => 1
  | .asyncForStmt _ => 1
  | .exceptHandler _ => 1
  | .boolOp nv _ => nv - 1
  | .compClause nf _ => 1 + nf
  | _ => 0

/-- `_calculate_cyclomatic_complexity` of parser.py applied to a function
definition node whose body is `body`: base complexity 1 plus the walk over
all descendant nodes (a `FunctionDef` node itself contributes nothing). -/
def calculate_cyclomatic_complexity (body : List PyNode) : Nat :=
  1 + node_weight_sum cc_weight body

/-- `_extract_functions` of parser.py: every (possibly async) function
definition anywhere in the tree, with its cyclomatic complexity. -/
def extract_functions (tree : List PyNode) : List FunctionInfo :=
  node_collect (fun n =>
    match n with
    | .funcDef name a body =>
      [⟨name, a, calculate_cyclomatic_complexity body⟩]
    | _ => []) tree

/-- `_extract_classes` of parser.py: every class definition anywhere in the
tree; methods are the names of function definitions directly in the class
body (one level only). -/
def extract_classes (tree : List PyNode) : List ClassInfo :=
  node_collect (fun n =>
    match n with
    | .classDef name body =>
      [⟨name, body.filterMap (fun m =>
           match m with
           | .funcDef nm _ _ => some nm
           | _ => none)⟩]
    | _ => []) tree

/-- `_extract_globals` of parser.py: targets of plain or annotated
assignments directly in the module body (no recursion). -/
def extract_globals (tree : List PyNode) : List String :=
  tree.foldl (fun acc n =>
    match n with
    | .assignStmt ts _ => acc ++ ts
    | .annAssignStmt (some t) _ => acc ++ [t]
    | _ => acc) []

/-- Names used in a file, from `find_unused_imports` of parser.py: every
`ast.Name` identifier and the base identifier of every attribute access
whose value is a name. -/
def used_names (tree : List PyNode) : List String :=
  node_collect (fun n =>
    match n with
    | .nameExpr id => [id]
    | .attrExpr (some b) _ => [b]
    | _ => []) tree

/-- Plain-import alias names equal to `"*"` anywhere in the tree.  The real
Python grammar never produces such an alias on an `ast.Import`; trees with
this list empty are exactly the well-formed ones. -/
def plain_star_imports (tree : List PyNode) : List String :=
  node_collect (fun n =>
    match n with
    | .importPlain pairs _ => (pairs.filter (fun p => p.1 = "*")).map Prod.fst
    | _ => []) tree

/-- Import classification logic of `_extract_imports` for a from-import:
first relative (level > 0), then wildcard (`*` among the names), then aliased,
else absolute; a direct `if`/`try` parent overrides the result with
`conditional`. -/
def classify_from_import (level : Nat) (names : List String)
    (aliases : List (String × String)) (parent : Option String) : ImportType :=
  let t :=
    if level > 0 then ImportType.relative
    else if "*" ∈ names then ImportType.wildcard
    else if aliases ≠ [] then ImportType.aliased
    else ImportType.absolute
  match parent with
  | some _ => ImportType.conditional
  | none => t

/-- `_extract_imports` of parser.py.  `parent` is the kind of the directly
enclosing statement when that statement is an `if` or `try` (the parent scan
of the source finds exactly the direct parent); all other parents pass
`none` to their children.  A plain `import` yields one statement per alias
and is never reclassified as conditional. -/
def extract_imports_list (parent : Option String) : List PyNode → List ImportStatement
  | [] => []
  | .importFrom m alias_list level ln :: rest =>
    { module := m
      names := alias_list.map Prod.fst
      aliases := alias_list.filterMap (fun p => p.2.map (fun a => (p.1, a)))
      level := level
      import_type := classify_from_import level (alias_list.map Prod.fst)
        (alias_list.filterMap (fun p => p.2.map (fun a => (p.1, a)))) parent
      line_number := ln
      is_future_import := decide (m = some "__future__")
      parent_node_type := parent } :: extract_imports_list parent rest
  | .importPlain alias_list ln :: rest =>
    alias_list.map (fun p =>
      { module := some p.1
        names := [p.1]
        aliases := (match p.2 with | some a => [(p.1, a)] | none => [])
        level := 0
        import_type := (match p.2 with
          | some _ => ImportType.aliased
          | none => ImportType.absolute)
        line_number := ln
        is_future_import := false
        parent_node_type := none }) ++ extract_imports_list parent rest
  | .funcDef _ _ body :: rest =>
    extract_imports_list none body ++ extract_imports_list parent rest
  | .classDef _ body :: rest =>
    extract_imports_list none body ++ extract_imports_list parent rest
  | .assignStmt _ cs :: rest =>
    extract_imports_list none cs ++ extract_imports_list parent rest
  | .annAssignStmt _ cs :: rest =>
    extract_imports_list none cs ++ extract_imports_list parent rest
  | .ifStmt cs :: rest =>
    extract_imports_list (some "If") cs ++ extract_imports_list parent rest
  | .tryStmt cs :: rest =>
    extract_imports_list (some "Try") cs ++ extract_imports_list parent rest
  | .whileStmt cs :: rest =>
    extract_imports_list none cs ++ extract_imports_list parent rest
  | .forStmt cs :: rest =>
    extract_imports_list none cs ++ extract_imports_list parent rest
  | .asyncForStmt cs :: rest =>
    extract_imports_list none cs ++ extract_imports_list parent rest
  | .exceptHandler cs :: rest =>
    extract_imports_list none cs ++ extract_imports_list parent rest
  | .boolOp _ cs :: rest =>
    extract_imports_list none cs ++ extract_imports_list parent rest
  | .compClause _ cs :: rest =>
    extract_imports_list none cs ++ extract_imports_list parent rest
  | .nameExpr _ :: rest => extract_imports_list parent rest
  | .attrExpr _ cs :: rest =>
    extract_imports_list none cs ++ extract_imports_list parent rest
  | .otherNode cs :: rest =>
    extract_imports_list none cs ++ extract_imports_list parent rest

/-- Top-level entry of `_extract_imports`: the module body with no enclosing
statement. -/
def extract_imports (tree : List PyNode) : List ImportStatement :=
  extract_imports_list none tree

/- ---------------------------------------------------------------- -/
/- Line metrics (_calculate_metrics)                                 -/
/- ---------------------------------------------------------------- -/

/-- State of the line scan of `_calculate_metrics`. -/
structure LineAcc where
  in_multiline_string : Bool
  quote_char : Option String
  code_lines : Nat
  comment_lines : Nat
  blank_lines : Nat
  docstring_lines : Nat

/-- Triple double quote. -/
def tripleDouble : String := "\"\"\""

/-- Triple single quote (three characters of code point 39). -/
def tripleSingle : String := String.mk [Char.ofNat 39, Char.ofNat 39, Char.ofNat 39]

/-- One iteration of the line loop of `_calculate_metrics`: a line containing
a triple quote toggles the multiline-string state and counts as docstring; a
line inside a multiline string counts as docstring; otherwise blank, comment
(leading `#`) or code. -/
def metrics_line (acc : LineAcc) (line : String) : LineAcc :=
  let stripped := pyStrip line
  if pyContains stripped tripleDouble || pyContains stripped tripleSingle then
    if acc.in_multiline_string = false then
      { acc with
        in_multiline_string := true
        quote_char := some (if pyContains stripped tripleDouble then tripleDouble
          else tripleSingle)
        docstring_lines := acc.docstring_lines + 1 }
    else if (match acc.quote_char with
        | some q => pyContains stripped q
        | none => false) then
      { acc with
        in_multiline_string := false
        docstring_lines := acc.docstring_lines + 1 }
    else
      { acc with docstring_lines := acc.docstring_lines + 1 }
  else if acc.in_multiline_string then
    { acc with docstring_lines := acc.docstring_lines + 1 }
  else if pyStrip line = "" then
    { acc with blank_lines := acc.blank_lines + 1 }
  else if pyStartsWith (pyStrip line) "#" then
    { acc with comment_lines := acc.comment_lines + 1 }
  else
    { acc with code_lines := acc.code_lines + 1 }

/-- `_calculate_metrics` of parser.py: scan the newline-split lines of the
content, then fill in the entity counts from the extracted lists; the
file-level cyclomatic complexity is the sum over all functions
(`_calculate_complexity`). -/
def calculate_metrics (content : String) (imps : List ImportStatement)
    (funcs : List FunctionInfo) (classes : List ClassInfo) : CodeMetrics :=
  let lines := pySplit '\n' content
  let acc := lines.foldl metrics_line ⟨false, none, 0, 0, 0, 0⟩
  { total_lines := lines.length
    code_lines := acc.code_lines
    comment_lines := acc.comment_lines
    blank_lines := acc.blank_lines
    docstring_lines := acc.docstring_lines
    function_count := funcs.length
    class_count := classes.length
    import_count := imps.length
    cyclomatic_complexity := funcs.foldl (fun s f => s + f.complexity) 0 }

/- ---------------------------------------------------------------- -/
/- Module naming and import resolution                               -/
/- ---------------------------------------------------------------- -/

/-- `_path_to_module` of parser.py on a repo-root-relative path: split into
segments, strip every `.py` occurrence from the final segment (Python
`str.replace` replaces all occurrences), drop a final `__init__` segment,
and join the rest with dots; an empty remainder has no module name. -/
def path_to_module (rel_path : String) : Option String :=
  let parts := pySplit '/' rel_path
  let lst := pyReplace (parts.getLastD "") ".py" ""
  let parts2 := parts.dropLast ++ [lst]
  let parts3 := if parts2.getLastD "" = "__init__" then parts2.dropLast else parts2
  if parts3 = [] then none else some (pyJoin "." parts3)

/-- `_resolve_import` of parser.py.  The module map sends dotted module names
to (repo-root-relative) file paths.  Relative imports first check that the
level does not exceed the current module depth; then the target module is
looked up directly, as a package `__init__`, and finally each non-wildcard
imported name is tried as a submodule. -/
def resolve_import (module_map : List (String × String)) (imp : ImportStatement)
    (current_module : String) : Option String :=
  let target? : Option String :=
    if imp.level > 0 then
      if current_module = "" then none
      else
        let parts := pySplit '.' current_module
        if imp.level > parts.length then none
        else
          let base := if imp.level = parts.length then ""
            else pyJoin "." (parts.take (parts.length - imp.level))
          let m := match imp.module with | some s => s | none => ""
          if base ≠ "" ∧ m ≠ "" then some (base ++ "." ++ m)
          else if base ≠ "" then some base
          else if m ≠ "" then some m
          else none
    else
      match imp.module with
      | none => none
      | some m => if m = "" then none else some m
  match target? with
  | none => none
  | some target_module =>
    match List.lookup target_module module_map with
    | some p => some p
    | none =>
      match List.lookup (target_module ++ ".__init__") module_map with
      | some p => some p
      | none =>
        imp.names.findSome? (fun name =>
          if name = "*" then none
          else List.lookup (target_module ++ "." ++ name) module_map)

/-- `_resolve_dependencies` of parser.py: skipped when the module name is
missing (or empty, Python falsiness); otherwise each resolved import path is
added to the dependency set unless it is the file itself.  Paths in the model
are already repo-root-relative. -/
def resolve_dependencies (module_map : List (String × String))
    (module_name : Option String) (file_path : String)
    (imps : List ImportStatement) : List String :=
  match module_name with
  | none => []
  | some current =>
    if current = "" then []
    else
      imps.foldl (fun deps imp =>
        match resolve_import module_map imp current with
        | none => deps
        | some p => if p ≠ file_path ∧ p ∉ deps then deps ++ [p] else deps) []

/- ---------------------------------------------------------------- -/
/- FileAnalysis and parser state                                     -/
/- ---------------------------------------------------------------- -/

/-- `FileAnalysis` dataclass of parser.py (fields used by the claims;
dependency sets are duplicate-free lists). -/
structure FileAnalysis where
  file_path : String
  module_name : Option String
  imports : List ImportStatement
  functions : List FunctionInfo
  classes : List ClassInfo
  global_variables : List String
  dependencies : List String
  metrics : CodeMetrics
  errors : List String
  warnings : List String
  ast_tree : Option (List PyNode)
  encoding : String
  shebang : Option String

/-- A fresh `FileAnalysis(file_path=p)` with default fields. -/
def empty_analysis (p : String) : FileAnalysis :=
  ⟨p, none, [], [], [], [], [], ⟨0, 0, 0, 0, 0, 0, 0, 0, 0⟩, [], [], none, "utf-8", none⟩

/-- A source file on disk: its decoded text and whether raw bytes decode as
UTF-8 (the latin-1 fallback of the source never fails). -/
structure SrcFile where
  content : String
  utf8Ok : Bool

/-- The mutable state of one `PythonCodeParser` instance: the file system it
reads, the indexer's module map, the analysis cache and the two dependency
maps, plus the parse counters.  All maps are association lists keyed by
repo-root-relative path. -/
structure ParserState where
  fs : List (String × SrcFile)
  module_map : List (String × String)
  file_analyses : List (String × FileAnalysis)
  dependency_graph : List (String × List String)
  reverse_dependency_graph : List (String × List String)
  parsed_files : Nat
  failed_files : Nat

/-- Python `dict` assignment `d[k] = v`: overwrite in place or append. -/
def setEntry {α : Type} (l : List (String × α)) (k : String) (v : α) :
    List (String × α) :=
  if (List.lookup k l).isSome then
    l.map (fun p => if p.1 = k then (k, v) else p)
  else l ++ [(k, v)]

/-- Python `defaultdict(set)` read `d[k]` without insertion: the stored set
(as a list) or the empty set. -/
def pyLookup (g : List (String × List String)) (x : String) : List String :=
  match g.find? (fun p => p.1 == x) with
  | some p => p.2
  | none => []

/-- Python `set.add`. -/
def addUnique (l : List String) (x : String) : List String :=
  if x ∈ l then l else l ++ [x]

/-- `analyze_file` of parser.py.  `parse` stands for `ast.parse`, producing
either a tree or a syntax error `(lineno, msg)`.  A missing file yields a
file-not-found analysis that is returned without being cached (the source
returns early); a syntax error yields an analysis with the error recorded and
no extraction performed; a successful parse runs every extraction and
resolves dependencies.  The resulting analysis is stored in the cache under
the file's (relative) path, overwriting any previous entry. -/
def analyze_file (parse : String → Except (Nat × String) (List PyNode))
    (st : ParserState) (file_path : String) : FileAnalysis × ParserState :=
  let rel_path := file_path
  match List.lookup file_path st.fs with
  | none =>
    ({ empty_analysis rel_path with errors := ["File not found: " ++ file_path] },
     { st with failed_files := st.failed_files + 1 })
  | some f =>
    let module_name := path_to_module file_path
    let dec := if f.utf8Ok then (f.content, "utf-8", ([] : List String))
      else (f.content, "latin-1", ["File uses non-UTF-8 encoding"])
    let content := dec.1
    let lines := pySplit '\n' content
    let shebang := match lines with
      | l :: _ => if pyStartsWith l "#!" then some l else none
      | [] => none
    match parse content with
    | .error e =>
      let a := { empty_analysis rel_path with
        module_name := module_name
        errors := ["Syntax error at line " ++ toString e.1 ++ ": " ++ e.2]
        warnings := dec.2.2
        encoding := dec.2.1
        shebang := shebang }
      (a, { st with
            file_analyses := setEntry st.file_analyses rel_path a
            failed_files := st.failed_files + 1 })
    | .ok tree =>
      let imps := extract_imports tree
      let wildcard_warns := imps.filterMap (fun imp =>
        if "*" ∈ imp.names ∧ imp.is_future_import = false then
          some ("Wildcard import at line " ++ toString imp.line_number)
        else none)
      let funcs := extract_functions tree
      let classes := extract_classes tree
      let globals := extract_globals tree
      let mets := calculate_metrics content imps funcs classes
      let deps := resolve_dependencies st.module_map module_name rel_path imps
      let a : FileAnalysis :=
        ⟨rel_path, module_name, imps, funcs, classes, globals, deps, mets, [],
         dec.2.2 ++ wildcard_warns, some tree, dec.2.1, shebang⟩
      (a, { st with
            file_analyses := setEntry st.file_analyses rel_path a
            parsed_files := st.parsed_files + 1 })

/-- The `if file_path not in self.file_analyses: self.analyze_file(file_path)`
pattern shared by `find_unused_imports` and `get_dependency_graph`. -/
def lookup_or_analyze (parse : String → Except (Nat × String) (List PyNode))
    (st : ParserState) (file_path : String) : ParserState :=
  if (List.lookup file_path st.file_analyses).isSome then st
  else (analyze_file parse st file_path).2

/- ---------------------------------------------------------------- -/
/- Dependency graph engine                                           -/
/- ---------------------------------------------------------------- -/

/-- `get_dependency_graph` of parser.py: for each requested file (all cached
files when none are given), analyze it if not yet cached, record its sorted
dependency list in the returned mapping, and merge its edges into the
persistent forward and reverse dependency maps. -/
def get_dependency_graph (parse : String → Except (Nat × String) (List PyNode))
    (st : ParserState) (files : Option (List String)) :
    List (String × List String) × ParserState :=
  let fl := match files with
    | none => st.file_analyses.map Prod.fst
    | some fs => fs
  fl.foldl (fun acc fp =>
    let st1 := lookup_or_analyze parse acc.2 fp
    match List.lookup fp st1.file_analyses with
    | none => (acc.1, st1)
    | some a =>
      (setEntry acc.1 fp (pySortStr a.dependencies),
       { st1 with
         dependency_graph := setEntry st1.dependency_graph fp a.dependencies
         reverse_dependency_graph := a.dependencies.foldl
           (fun rg dep => setEntry rg dep (addUnique (pyLookup rg dep) fp))
           st1.reverse_dependency_graph })) (([] : List (String × List String)), st)

/-- The worklist loop of `get_file_impact_analysis`: pop a file from the
stack; if unvisited, mark it visited (= transitive) and push its reverse
dependents.  The Python list pops from the end; the head of `toVisit` is the
top of that stack, so pushing reverses the dependent list. -/
def expand (g : List (String × List String)) (toVisit visited : List String) :
    List String :=
  match toVisit with
  | [] => visited
  | current :: rest =>
    if current ∈ visited then expand g rest visited
    else expand g ((pyLookup g current).reverse ++ rest) (current :: visited)
termination_by
  (((g.map Prod.fst ++ (g.map Prod.snd).flatten).dedup).filter
    (fun x => decide (x ∉ visited))).length *
    (((g.map Prod.snd).flatten).length + 1) + toVisit.length
decreasing_by
  · simp only [List.length_cons]
    omega
  · rename_i hcur
    have hmono : ∀ (l : List String) (p q : String → Bool),
        (∀ a, q a = true → p a = true) → (l.filter q).length ≤ (l.filter p).length := by
      intro l p q h
      induction l with
      | nil => simp
      | cons a t ih =>
        by_cases hq : q a = true
        · have hp := h a hq
          simp only [List.filter_cons, hq, hp, if_true, List.length_cons]
          omega
        · have hq2 : q a = false := by simpa using hq
          by_cases hp : p a = true
          · simp only [List.filter_cons, hq2, hp, if_true, Bool.false_eq_true, if_false,
              List.length_cons]
            omega
          · have hp2 : p a = false := by simpa using hp
            simp only [List.filter_cons, hq2, hp2, Bool.false_eq_true, if_false]
            omega
    have hstrict : ∀ (l : List String) (p q : String → Bool) (x : String),
        x ∈ l → p x = true → q x = false → (∀ a, q a = true → p a = true) →
        (l.filter q).length < (l.filter p).length := by
      intro l p q x hx hpx hqx h
      induction l with
      | nil => simp at hx
      | cons a t ih =>
        simp only [List.filter_cons]
        rcases List.mem_cons.mp hx with rfl | hxt
        · rw [hpx, hqx]
          simp only [List.length_cons, Bool.false_eq_true, if_false]
          exact Nat.lt_succ_of_le (hmono t p q h)
        · cases hq : q a with
          | true =>
            rw [h a hq]
            simp only [List.length_cons]
            exact Nat.succ_lt_succ (ih hxt)
          | false =>
            cases hp : p a
            · simpa using ih hxt
            · simp only [List.length_cons]
              exact Nat.lt_succ_of_lt (ih hxt)
    have hlen : (pyLookup g current).length ≤ ((g.map Prod.snd).flatten).length := by
      unfold pyLookup
      cases h : g.find? (fun p => p.1 == current) with
      | none => simp
      | some p =>
        have hp : p ∈ g := List.mem_of_find?_eq_some h
        have hm : p.2 ∈ g.map Prod.snd := List.mem_map_of_mem Prod.snd hp
        rw [List.length_flatten]
        exact List.le_sum_of_mem (List.mem_map_of_mem List.length hm)
    by_cases hmem : current ∈ (g.map Prod.fst ++ (g.map Prod.snd).flatten).dedup
    · have hlt := hstrict ((g.map Prod.fst ++ (g.map Prod.snd).flatten).dedup)
        (fun x => decide (x ∉ visited)) (fun x => decide (x ∉ current :: visited))
        current hmem (by simpa using hcur) (by simp)
        (by intro a ha; simp at ha ⊢; tauto)
      simp only [List.length_append, List.length_reverse, List.length_cons]
      calc (((g.map Prod.fst ++ (g.map Prod.snd).flatten).dedup).filter
            (fun x => decide (x ∉ current :: visited))).length *
            (((g.map Prod.snd).flatten).length + 1) +
            ((pyLookup g current).length + rest.length)
          ≤ (((g.map Prod.fst ++ (g.map Prod.snd).flatten).dedup).filter
            (fun x => decide (x ∉ current :: visited))).length *
            (((g.map Prod.snd).flatten).length + 1) +
            (((g.map Prod.snd).flatten).length + rest.length) := by omega
        _ < (((g.map Prod.fst ++ (g.map Prod.snd).flatten).dedup).filter
            (fun x => decide (x ∉ visited))).length *
            (((g.map Prod.snd).flatten).length + 1) + (rest.length + 1) := by nlinarith
    · have hnil : pyLookup g current = [] := by
        unfold pyLookup
        cases hf : g.find? (fun p => p.1 == current) with
        | none => rfl
        | some p =>
          exfalso
          have hp : p ∈ g := List.mem_of_find?_eq_some hf
          have heq : p.1 = current := by
            have := List.find?_some hf
            simpa using this
          apply hmem
          rw [List.mem_dedup]
          apply List.mem_append_left
          rw [← heq]
          exact List.mem_map_of_mem Prod.fst hp
      have hfeq : ((g.map Prod.fst ++ (g.map Prod.snd).flatten).dedup).filter
          (fun x => decide (x ∉ current :: visited))
          = ((g.map Prod.fst ++ (g.map Prod.snd).flatten).dedup).filter
            (fun x => decide (x ∉ visited)) := by
        apply List.filter_congr
        intro a ha
        simp only [decide_eq_decide, List.mem_cons]
        constructor
        · intro h hv
          exact h (Or.inr hv)
        · intro h hv
          rcases hv with rfl | hv
          · exact hmem ha
          · exact h hv
      rw [hnil, hfeq]
      simp

/-- Result record of `get_file_impact_analysis`. -/
structure ImpactAnalysis where
  file : String
  direct_dependents : List String
  transitive_dependents : List String
  total_impact : Nat
  deriving DecidableEq

/-- `get_file_impact_analysis` of parser.py: empty result for a file absent
from the reverse map; otherwise direct dependents are the reverse-map entry,
the worklist expansion from them computes the visited set (equal to the
transitive set in the source), `transitive_dependents` is the sorted visited
set minus the direct set, and `total_impact` its full size. -/
def get_file_impact_analysis (st : ParserState) (file_path : String) : ImpactAnalysis :=
  let rg := st.reverse_dependency_graph
  if (rg.find? (fun p => p.1 == file_path)).isNone then
    { file := file_path
      direct_dependents := []
      transitive_dependents := []
      total_impact := 0 }
  else
    let direct := pyLookup rg file_path
    let transitive := expand rg direct.reverse []
    { file := file_path
      direct_dependents := pySortStr direct
      transitive_dependents := pySortStr (transitive.filter (fun x => x ∉ direct))
      total_impact := transitive.length }

/-- One step of the dependency relation stored in an adjacency map: `b` is a
recorded neighbour of `a`. -/
def graph_step (g : List (String × List String)) (a b : String) : Prop :=
  b ∈ pyLookup g a

/-- The recursive `find_cycle` of `find_circular_dependencies`, iterating the
neighbour set by index.  `path` already ends with `node`, `visited` and
`recStack` already contain `node` (the source adds them on entry).  The
returned value pairs the optional cycle with the updated visited set; the
subtype packages the fact that the visited set only grows, which the
termination argument needs.  An unvisited neighbour is explored recursively
(path copied, visited shared, the recursion-stack entry removed again on a
`None` return, which value passing models by reusing `recStack`); a visited
neighbour on the recursion stack closes a cycle reported as the path slice
from that neighbour, with the neighbour appended. -/
def find_cycle_aux (g : List (String × List String)) (node : String) (k : Nat)
    (path visited recStack : List String) :
    {r : Option (List String) × List String // ∀ x ∈ visited, x ∈ r.2} :=
  if hk : k < (pyLookup g node).length then
    let nb := (pyLookup g node).getD k ""
    if hnv : nb ∉ visited then
      let rc := find_cycle_aux g nb 0 (path ++ [nb]) (nb :: visited) (nb :: recStack)
      match rc.val.1 with
      | some c =>
        ⟨(some c, rc.val.2), fun x hx => rc.property x (List.mem_cons_of_mem _ hx)⟩
      | none =>
        let r := find_cycle_aux g node (k + 1) path rc.val.2 recStack
        ⟨r.val, fun x hx => r.property x (rc.property x (List.mem_cons_of_mem _ hx))⟩
    else if nb ∈ recStack then
      ⟨(some (path.drop (path.indexOf nb) ++ [nb]), visited), fun _ hx => hx⟩
    else
      find_cycle_aux g node (k + 1) path visited recStack
  else
    ⟨(none, visited), fun _ hx => hx⟩
termination_by
  (((g.map Prod.fst ++ (g.map Prod.snd).flatten).dedup).filter
    (fun x => decide (x ∉ visited))).length *
    (((g.map Prod.snd).flatten).length + 2) + ((pyLookup g node).length - k)
decreasing_by
  · -- entering an unvisited neighbour
    have hmono : ∀ (l : List String) (p q : String → Bool),
        (∀ a, q a = true → p a = true) → (l.filter q).length ≤ (l.filter p).length := by
      intro l p q h
      induction l with
      | nil => simp
      | cons a t ih =>
        by_cases hq : q a = true
        · have hp := h a hq
          simp only [List.filter_cons, hq, hp, if_true, List.length_cons]
          omega
        · have hq2 : q a = false := by simpa using hq
          by_cases hp : p a = true
          · simp only [List.filter_cons, hq2, hp, if_true, Bool.false_eq_true, if_false,
              List.length_cons]
            omega
          · have hp2 : p a = false := by simpa using hp
            simp only [List.filter_cons, hq2, hp2, Bool.false_eq_true, if_false]
            omega
    have hstrict : ∀ (l : List String) (p q : String → Bool) (x : String),
        x ∈ l → p x = true → q x = false → (∀ a, q a = true → p a = true) →
        (l.filter q).length < (l.filter p).length := by
      intro l p q x hx hpx hqx h
      induction l with
      | nil => simp at hx
      | cons a t ih =>
        simp only [List.filter_cons]
        rcases List.mem_cons.mp hx with rfl | hxt
        · rw [hpx, hqx]
          simp only [List.length_cons, Bool.false_eq_true, if_false]
          exact Nat.lt_succ_of_le (hmono t p q h)
        · cases hq : q a with
          | true =>
            rw [h a hq]
            simp only [List.length_cons]
            exact Nat.succ_lt_succ (ih hxt)
          | false =>
            cases hp : p a
            · simpa using ih hxt
            · simp only [List.length_cons]
              exact Nat.lt_succ_of_lt (ih hxt)
    have hnb : (pyLookup g node).getD k "" ∈ pyLookup g node := by
      rw [List.getD_eq_getElem _ _ hk]
      exact List.getElem_mem hk
    have hsubv : ∀ y n2, y ∈ pyLookup g n2 → y ∈ (g.map Prod.snd).flatten := by
      intro y n2 hy
      unfold pyLookup at hy
      cases hf : g.find? (fun p => p.1 == n2) with
      | none => rw [hf] at hy; simp at hy
      | some p =>
        rw [hf] at hy
        have hp : p ∈ g := List.mem_of_find?_eq_some hf
        exact List.mem_flatten.mpr ⟨p.2, List.mem_map_of_mem Prod.snd hp, hy⟩
    have hlenGen : ∀ y, (pyLookup g y).length ≤ ((g.map Prod.snd).flatten).length := by
      intro y
      unfold pyLookup
      cases h : g.find? (fun p => p.1 == y) with
      | none => simp
      | some p =>
        have hp : p ∈ g := List.mem_of_find?_eq_some h
        have hm : p.2 ∈ g.map Prod.snd := List.mem_map_of_mem Prod.snd hp
        rw [List.length_flatten]
        exact List.le_sum_of_mem (List.mem_map_of_mem List.length hm)
    have hmem : (pyLookup g node).getD k "" ∈
        (g.map Prod.fst ++ (g.map Prod.snd).flatten).dedup := by
      rw [List.mem_dedup]
      exact List.mem_append_right _ (hsubv _ _ hnb)
    have hlt := hstrict ((g.map Prod.fst ++ (g.map Prod.snd).flatten).dedup)
      (fun x => decide (x ∉ visited))
      (fun x => decide (x ∉ (pyLookup g node).getD k "" :: visited))
      ((pyLookup g node).getD k "") hmem (decide_eq_true hnv) (by simp)
      (by intro a ha; simp at ha ⊢; tauto)
    have hlen : (pyLookup g ((pyLookup g node).getD k "")).length
        ≤ ((g.map Prod.snd).flatten).length := hlenGen _
    simp only [Nat.sub_zero]
    calc (((g.map Prod.fst ++ (g.map Prod.snd).flatten).dedup).filter
          (fun x => decide (x ∉ (pyLookup g node).getD k "" :: visited))).length *
          (((g.map Prod.snd).flatten).length + 2) +
          (pyLookup g ((pyLookup g node).getD k "")).length
        ≤ (((g.map Prod.fst ++ (g.map Prod.snd).flatten).dedup).filter
          (fun x => decide (x ∉ (pyLookup g node).getD k "" :: visited))).length *
          (((g.map Prod.snd).flatten).length + 2) +
          ((g.map Prod.snd).flatten).length := Nat.add_le_add_left hlen _
      _ < ((((g.map Prod.fst ++ (g.map Prod.snd).flatten).dedup).filter
          (fun x => decide (x ∉ (pyLookup g node).getD k "" :: visited))).length + 1) *
          (((g.map Prod.snd).flatten).length + 2) := by
          have hr : ((((g.map Prod.fst ++ (g.map Prod.snd).flatten).dedup).filter
              (fun x => decide (x ∉ (pyLookup g node).getD k "" :: visited))).length + 1) *
              (((g.map Prod.snd).flatten).length + 2)
              = (((g.map Prod.fst ++ (g.map Prod.snd).flatten).dedup).filter
                (fun x => decide (x ∉ (pyLookup g node).getD k "" :: visited))).length *
                (((g.map Prod.snd).flatten).length + 2) +
                (((g.map Prod.snd).flatten).length + 2) := by ring
          omega
      _ ≤ (((g.map Prod.fst ++ (g.map Prod.snd).flatten).dedup).filter
          (fun x => decide (x ∉ visited))).length *
          (((g.map Prod.snd).flatten).length + 2) := Nat.mul_le_mul_right _ hlt
      _ ≤ (((g.map Prod.fst ++ (g.map Prod.snd).flatten).dedup).filter
          (fun x => decide (x ∉ visited))).length *
          (((g.map Prod.snd).flatten).length + 2) +
          ((pyLookup g node).length - k) := Nat.le_add_right _ _
  · -- continuing after the recursive exploration returned no cycle
    have hmono : ∀ (l : List String) (p q : String → Bool),
        (∀ a, q a = true → p a = true) → (l.filter q).length ≤ (l.filter p).length := by
      intro l p q h
      induction l with
      | nil => simp
      | cons a t ih =>
        by_cases hq : q a = true
        · have hp := h a hq
          simp only [List.filter_cons, hq, hp, if_true, List.length_cons]
          omega
        · have hq2 : q a = false := by simpa using hq
          by_cases hp : p a = true
          · simp only [List.filter_cons, hq2, hp, if_true, Bool.false_eq_true, if_false,
              List.length_cons]
            omega
          · have hp2 : p a = false := by simpa using hp
            simp only [List.filter_cons, hq2, hp2, Bool.false_eq_true, if_false]
            omega
    have hstrict : ∀ (l : List String) (p q : String → Bool) (x : String),
        x ∈ l → p x = true → q x = false → (∀ a, q a = true → p a = true) →
        (l.filter q).length < (l.filter p).length := by
      intro l p q x hx hpx hqx h
      induction l with
      | nil => simp at hx
      | cons a t ih =>
        simp only [List.filter_cons]
        rcases List.mem_cons.mp hx with rfl | hxt
        · rw [hpx, hqx]
          simp only [List.length_cons, Bool.false_eq_true, if_false]
          exact Nat.lt_succ_of_le (hmono t p q h)
        · cases hq : q a with
          | true =>
            rw [h a hq]
            simp only [List.length_cons]
            exact Nat.succ_lt_succ (ih hxt)
          | false =>
            cases hp : p a
            · simpa using ih hxt
            · simp only [List.length_cons]
              exact Nat.lt_succ_of_lt (ih hxt)
    have hnb : (pyLookup g node).getD k "" ∈ pyLookup g node := by
      rw [List.getD_eq_getElem _ _ hk]
      exact List.getElem_mem hk
    have hsubv : ∀ y n2, y ∈ pyLookup g n2 → y ∈ (g.map Prod.snd).flatten := by
      intro y n2 hy
      unfold pyLookup at hy
      cases hf : g.find? (fun p => p.1 == n2) with
      | none => rw [hf] at hy; simp at hy
      | some p =>
        rw [hf] at hy
        have hp : p ∈ g := List.mem_of_find?_eq_some hf
        exact List.mem_flatten.mpr ⟨p.2, List.mem_map_of_mem Prod.snd hp, hy⟩
    have hlenGen : ∀ y, (pyLookup g y).length ≤ ((g.map Prod.snd).flatten).length := by
      intro y
      unfold pyLookup
      cases h : g.find? (fun p => p.1 == y) with
      | none => simp
      | some p =>
        have hp : p ∈ g := List.mem_of_find?_eq_some h
        have hm : p.2 ∈ g.map Prod.snd := List.mem_map_of_mem Prod.snd hp
        rw [List.length_flatten]
        exact List.le_sum_of_mem (List.mem_map_of_mem List.length hm)
    have hmem : (pyLookup g node).getD k "" ∈
        (g.map Prod.fst ++ (g.map Prod.snd).flatten).dedup := by
      rw [List.mem_dedup]
      exact List.mem_append_right _ (hsubv _ _ hnb)
    have hvsub : ∀ x ∈ (pyLookup g node).getD k "" :: visited, x ∈ rc.val.2 :=
      rc.property
    have hmono2 : (((g.map Prod.fst ++ (g.map Prod.snd).flatten).dedup).filter
        (fun x => decide (x ∉ rc.val.2))).length
        ≤ (((g.map Prod.fst ++ (g.map Prod.snd).flatten).dedup).filter
          (fun x => decide (x ∉ (pyLookup g node).getD k "" :: visited))).length := by
      apply hmono
      intro a ha
      simp only [decide_eq_true_eq] at ha ⊢
      exact fun hav => ha (hvsub a hav)
    have hlt := hstrict ((g.map Prod.fst ++ (g.map Prod.snd).flatten).dedup)
      (fun x => decide (x ∉ visited))
      (fun x => decide (x ∉ (pyLookup g node).getD k "" :: visited))
      ((pyLookup g node).getD k "") hmem (decide_eq_true hnv) (by simp)
      (by intro a ha; simp at ha ⊢; tauto)
    calc (((g.map Prod.fst ++ (g.map Prod.snd).flatten).dedup).filter
          (fun x => decide (x ∉ rc.val.2))).length *
          (((g.map Prod.snd).flatten).length + 2) +
          ((pyLookup g node).length - (k + 1))
        ≤ (((g.map Prod.fst ++ (g.map Prod.snd).flatten).dedup).filter
          (fun x => decide (x ∉ (pyLookup g node).getD k "" :: visited))).length *
          (((g.map Prod.snd).flatten).length + 2) + (pyLookup g node).length := by
          have := Nat.mul_le_mul_right (((g.map Prod.snd).flatten).length + 2) hmono2
          omega
      _ ≤ (((g.map Prod.fst ++ (g.map Prod.snd).flatten).dedup).filter
          (fun x => decide (x ∉ (pyLookup g node).getD k "" :: visited))).length *
          (((g.map Prod.snd).flatten).length + 2) +
          ((g.map Prod.snd).flatten).length := by
          have hlen2 : (pyLookup g node).length ≤ ((g.map Prod.snd).flatten).length :=
            hlenGen _
          omega
      _ < ((((g.map Prod.fst ++ (g.map Prod.snd).flatten).dedup).filter
          (fun x => decide (x ∉ (pyLookup g node).getD k "" :: visited))).length + 1) *
          (((g.map Prod.snd).flatten).length + 2) := by
          have hr : ((((g.map Prod.fst ++ (g.map Prod.snd).flatten).dedup).filter
              (fun x => decide (x ∉ (pyLookup g node).getD k "" :: visited))).length + 1) *
              (((g.map Prod.snd).flatten).length + 2)
              = (((g.map Prod.fst ++ (g.map Prod.snd).flatten).dedup).filter
                (fun x => decide (x ∉ (pyLookup g node).getD k "" :: visited))).length *
                (((g.map Prod.snd).flatten).length + 2) +
                (((g.map Prod.snd).flatten).length + 2) := by ring
          omega
      _ ≤ (((g.map Prod.fst ++ (g.map Prod.snd).flatten).dedup).filter
          (fun x => decide (x ∉ visited))).length *
          (((g.map Prod.snd).flatten).length + 2) := Nat.mul_le_mul_right _ hlt
      _ ≤ (((g.map Prod.fst ++ (g.map Prod.snd).flatten).dedup).filter
          (fun x => decide (x ∉ visited))).length *
          (((g.map Prod.snd).flatten).length + 2) +
          ((pyLookup g node).length - k) := Nat.le_add_right _ _
  · -- skipping a visited neighbour not on the recursion stack
    omega

/-- `find_circular_dependencies` of parser.py: run the DFS `find_cycle` from
every not-yet-visited key of the forward map (fresh recursion stack, shared
visited set), collecting cycles and deduplicating by exact list equality. -/
def find_circular_dependencies (g : List (String × List String)) :
    List (List String) :=
  ((g.map Prod.fst).foldl (fun (acc : List String × List (List String)) node =>
    if node ∈ acc.1 then acc
    else
      let r := (find_cycle_aux g node 0 [node] (node :: acc.1) [node]).val
      match r.1 with
      | some cycle => (r.2, if cycle ∈ acc.2 then acc.2 else acc.2 ++ [cycle])
      | none => (r.2, acc.2)) ([], [])).2

/-- `find_unused_imports` of parser.py: analyze the file when not cached;
without a cached analysis carrying a syntax tree the result is empty;
otherwise an import is unused when none of its bound names (imported names
and alias targets) occurs among the used names, wildcard imports being
skipped. -/
def find_unused_imports (parse : String → Except (Nat × String) (List PyNode))
    (st : ParserState) (file_path : String) : List ImportStatement × ParserState :=
  let st1 := lookup_or_analyze parse st file_path
  match List.lookup file_path st1.file_analyses with
  | none => ([], st1)
  | some a =>
    match a.ast_tree with
    | none => ([], st1)
    | some tree =>
      let used := used_names tree
      (a.imports.filter (fun imp =>
        if "*" ∈ imp.names then false
        else decide (∀ n ∈ imp.names ++ imp.aliases.map Prod.snd, n ∉ used)), st1)

/- ---------------------------------------------------------------- -/
/- Quality analyzer (steward.py, check 6)                            -/
/- ---------------------------------------------------------------- -/

/-- `QualityIssue` record produced by the steward (fields used by the
claims). -/
structure QualityIssue where
  file : Option String
  issue_type : String
  severity : String
  message : String
  line : Option Nat
  deriving DecidableEq

/-- The wildcard-import condition of steward check 6:
`imp.import_type == ImportType.WILDCARD and not imp.is_future_import`. -/
def steward_wildcard_pred (imp : ImportStatement) : Bool :=
  decide (imp.import_type = ImportType.wildcard) && !imp.is_future_import

/-- Check 6 of `steward_node`: one info-severity `wildcard_import` issue
per import whose recorded type is wildcard, not a future import. -/
def steward_wildcard_issues (file_path : String) (imps : List ImportStatement) :
    List QualityIssue :=
  (imps.filter steward_wildcard_pred).map (fun imp =>
    { file := some file_path
      issue_type := "wildcard_import"
      severity := "info"
      message := "Wildcard import: from " ++
        (match imp.module with | some m => m | none => "None") ++ " import *"
      line := some imp.line_number })

/- ---------------------------------------------------------------- -/
/- Diagram renderer (diagram.py)                                     -/
/- ---------------------------------------------------------------- -/

/-- `_clean_id` of diagram.py: chained replacement of `/`, `.`, `-` and `\`
by `_`. -/
def clean_id (text : String) : String :=
  pyReplace (pyReplace (pyReplace (pyReplace text "/" "_") "." "_") "-" "_") "\\" "_"

/-- `_classify_node` of diagram.py. -/
def classify_node (path : String) : String :=
  if pyStartsWith path "src/agents" then "Agents"
  else if pyStartsWith path "src/tools" then "Tools"
  else if pyStartsWith path "src/utils" then "Utilities"
  else if pyStartsWith path "src/graph" || pyStartsWith path "src/state" ||
      path = "main.py" then "Core"
  else "Other"

/-- `_style_for_node` of diagram.py. -/
def style_for_node (path : String) : String :=
  if pyStartsWith path "src/agents" then "Agents"
  else if pyStartsWith path "src/tools" then "Tools"
  else if pyStartsWith path "src/utils" then "Utils"
  else if pyStartsWith path "src/graph" || pyStartsWith path "src/state" ||
      path = "main.py" then "Core"
  else "Other"

/-- The fixed header lines of the architecture map. -/
def arch_map_header : List String :=
  ["%% RepoRanger Dependency Graph",
   "graph TD",
   "    %% Styles",
   "    classDef Agents fill:#f3e5f5,stroke:#6a1b9a,stroke-width:2px;",
   "    classDef Tools fill:#e1f5fe,stroke:#0277bd,stroke-width:1.5px;",
   "    classDef Utils fill:#e8f5e9,stroke:#2e7d32;",
   "    classDef Core fill:#fff3e0,stroke:#ef6c00;",
   "    classDef Other fill:#eceff1,stroke:#455a64;",
   "    %% Legend",
   "    subgraph Legend[Legend]",
   "        LA[Agent Modules]:::Agents",
   "        LT[Tooling]:::Tools",
   "        LU[Utilities]:::Utils",
   "        LC[Core/Graph]:::Core",
   "        LO[Misc]:::Other",
   "    end"]

/-- `defaultdict(list)` append `d[k].append(v)` preserving key insertion
order. -/
def appendEntry (l : List (String × List String)) (k : String) (v : String) :
    List (String × List String) :=
  if (List.lookup k l).isSome then
    l.map (fun p => if p.1 = k then (p.1, p.2 ++ [v]) else p)
  else l ++ [(k, [v])]

/-- `generate_architecture_map` of diagram.py: build the dependency graph of
the requested files; an empty graph yields the empty string, otherwise the
header, one subgraph per section of the sorted node set, and one edge line
per dependency, joined by newlines. -/
def generate_architecture_map (parse : String → Except (Nat × String) (List PyNode))
    (st : ParserState) (files : Option (List String)) : String :=
  let graph := (get_dependency_graph parse st files).1
  if graph = [] then ""
  else
    let nodes := graph.foldl (fun ns p => p.2.foldl addUnique (addUnique ns p.1)) []
    let sections := (pySortStr nodes).foldl
      (fun secs node => appendEntry secs (classify_node node) node) []
    let sectionLines := sections.foldl (fun ls sec =>
      ls ++ ["    subgraph " ++ sec.1] ++
        sec.2.map (fun path =>
          "        " ++ clean_id path ++ "[\"" ++ pyReplace path "src/" "" ++
            "\"]:::" ++ style_for_node path) ++
        ["    end"]) []
    let edgeLines := graph.foldl (fun ls p =>
      ls ++ p.2.map (fun t => "    " ++ clean_id p.1 ++ " --> " ++ clean_id t)) []
    pyJoin "\n" (arch_map_header ++ sectionLines ++ edgeLines)

/- ---------------------------------------------------------------- -/
/- Specification-side counting functions (claim C6)                  -/
/- ---------------------------------------------------------------- -/

/-- Follows the spec's formula: number of if/while/for/async-for nodes. -/
def spec_decision_count (body : List PyNode) : Nat :=
  node_weight_sum (fun n =>
    match n with
    | .ifStmt _ => 1
    | .whileStmt _ => 1
    | .forStmt _ => 1
    | .asyncForStmt _ => 1
    | _ => 0) body

/-- Follows the spec's formula: number of exception handlers. -/
def spec_handler_count (body : List PyNode) : Nat :=
  node_weight_sum (fun n =>
    match n with
    | .exceptHandler _ => 1
    | _ => 0) body

/-- Follows the spec's formula: for each boolean and/or chain, its operand
count minus 1. -/
def spec_boolop_extra (body : List PyNode) : Nat :=
  node_weight_sum (fun n =>
    match n with
    | .boolOp nv _ => nv - 1
    | _ => 0) body

/-- Follows the spec's formula: number of comprehension clauses. -/
def spec_comp_clause_count (body : List PyNode) : Nat :=
  node_weight_sum (fun n =>
    match n with
    | .compClause _ _ => 1
    | _ => 0) body

/-- Follows the spec's formula: number of additional filter conditions within
comprehensions. -/
def spec_comp_filter_count (body : List PyNode) : Nat :=
  node_weight_sum (fun n =>
    match n with
    | .compClause nf _ => nf
    | _ => 0) body

/- ---------------------------------------------------------------- -/
/- Concrete fixtures used by counterexamples and witnesses           -/
/- ---------------------------------------------------------------- -/

/-- A relative import going up three levels. -/
def c3_example_import : ImportStatement :=
  ⟨some "x", ["x"], [], 3, ImportType.relative, 1, false, none⟩

/-- Module body whose only statement is `from os import *` at top level. -/
def c2_top_tree : List PyNode :=
  [PyNode.importFrom (some "os") [("*", none)] 0 1]

/-- The import statement extracted from `c2_top_tree`. -/
def c2_top_import : ImportStatement :=
  ⟨some "os", ["*"], [], 0, ImportType.wildcard, 1, false, none⟩

/-- Module body whose only statement is an `if` containing `from os import *`. -/
def c2_nested_tree : List PyNode :=
  [PyNode.ifStmt [PyNode.importFrom (some "os") [("*", none)] 0 2]]

/-- Forward dependency graph with exactly the edges A→B and B→A. -/
def two_cycle_graph : List (String × List String) :=
  [("A", ["B"]), ("B", ["A"])]

/-- Parser state whose reverse dependency map carries the two-file cycle
a.py ↔ b.py. -/
def c1_state : ParserState :=
  ⟨[], [], [], [], [("a.py", ["b.py"]), ("b.py", ["a.py"])], 0, 0⟩

/-- A parse function that always reports a syntax error at line 3. -/
def c5_parse : String → Except (Nat × String) (List PyNode) :=
  fun _ => Except.error (3, "invalid syntax")

/-- The single on-disk file of the C5 witness state. -/
def c5_file : SrcFile := ⟨"x = (", true⟩

/-- Parser state with one unparsable file a.py. -/
def c5_state : ParserState :=
  ⟨[("a.py", c5_file)], [], [], [], [], 0, 0⟩

/-- Parser state with an empty file system and empty caches. -/
def empty_state : ParserState :=
  ⟨[], [], [], [], [], 0, 0⟩

/- ---------------------------------------------------------------- -/
/- Helper lemmas                                                     -/
/- ---------------------------------------------------------------- -/

theorem lexLeChars_total (a b : List Char) :
    lexLeChars a b = true ∨ lexLeChars b a = true := by
  induction a generalizing b with
  | nil => left; rfl
  | cons x xs ih =>
    cases b with
    | nil => right; rfl
    | cons y ys =>
      by_cases hxy : x = y
      · subst hxy
        rcases ih ys with h | h
        · left; simpa [lexLeChars] using h
        · right; simpa [lexLeChars] using h
      · rcases lt_or_gt_of_ne hxy with h | h
        · left; simp [lexLeChars, hxy, h]
        · right
          simp [lexLeChars, Ne.symm hxy]
          exact h

theorem lexLeChars_trans (a b c : List Char) (hab : lexLeChars a b = true)
    (hbc : lexLeChars b c = true) : lexLeChars a c = true := by
  induction a generalizing b c with
  | nil => rfl
  | cons x xs ih =>
    cases b with
    | nil => simp [lexLeChars] at hab
    | cons y ys =>
      cases c with
      | nil => simp [lexLeChars] at hbc
      | cons z zs =>
        by_cases hxy : x = y
        · subst hxy
          by_cases hyz : x = z
          · subst hyz
            simp only [lexLeChars, if_pos rfl] at hab hbc ⊢
            exact ih ys zs hab hbc
          · simp only [lexLeChars, if_neg hyz] at hbc ⊢
            exact hbc
        · simp only [lexLeChars, if_neg hxy] at hab
          by_cases hyz : y = z
          · subst hyz
            simp only [lexLeChars, if_neg hxy]
            exact hab
          · simp only [lexLeChars, if_neg hyz] at hbc
            have hxz : x < z := lt_trans (by simpa using hab) (by simpa using hbc)
            simp [lexLeChars, ne_of_lt hxz, hxz]

theorem pySortStr_sorted (l : List String) :
    List.Sorted (fun a b => strLe a b = true) (pySortStr l) := by
  haveI : IsTotal String (fun a b => strLe a b = true) :=
    ⟨fun a b => lexLeChars_total a.data b.data⟩
  haveI : IsTrans String (fun a b => strLe a b = true) :=
    ⟨fun a b c => lexLeChars_trans a.data b.data c.data⟩
  exact List.sorted_insertionSort _ l

theorem pySortStr_mem (l : List String) (x : String) : x ∈ pySortStr l ↔ x ∈ l :=
  List.mem_insertionSort _

/-- One line-scan step buckets its line into exactly one of the four line
counters. -/
theorem metrics_line_adds_one (acc : LineAcc) (line : String) :
    (metrics_line acc line).blank_lines + (metrics_line acc line).comment_lines +
      (metrics_line acc line).code_lines + (metrics_line acc line).docstring_lines =
      acc.blank_lines + acc.comment_lines + acc.code_lines + acc.docstring_lines + 1 := by
  simp only [metrics_line]
  by_cases c1 : (pyContains (pyStrip line) tripleDouble ||
      pyContains (pyStrip line) tripleSingle) = true
  · rw [if_pos c1]
    by_cases c2 : acc.in_multiline_string = false
    · rw [if_pos c2]; simp; try omega
    · rw [if_neg c2]
      by_cases c3 : (match acc.quote_char with
          | some q => pyContains (pyStrip line) q
          | none => false) = true
      · rw [if_pos c3]; simp; try omega
      · rw [if_neg c3]; simp; try omega; try omega
  · rw [if_neg c1]
    by_cases c4 : acc.in_multiline_string = true
    · rw [if_pos c4]; simp; try omega
    · rw [if_neg c4]
      by_cases c5 : pyStrip line = ""
      · rw [if_pos c5]; simp; try omega
      · rw [if_neg c5]
        by_cases c6 : pyStartsWith (pyStrip line) "#" = true
        · rw [if_pos c6]; simp; try omega
        · rw [if_neg c6]; simp; try omega; try omega

/-- Folding the line scan over any line list adds exactly one count per
line. -/
theorem metrics_fold_partition (lines : List String) (acc : LineAcc) :
    ((lines.foldl metrics_line acc).blank_lines +
      (lines.foldl metrics_line acc).comment_lines +
      (lines.foldl metrics_line acc).code_lines +
      (lines.foldl metrics_line acc).docstring_lines) =
      acc.blank_lines + acc.comment_lines + acc.code_lines + acc.docstring_lines +
        lines.length := by
  induction lines generalizing acc with
  | nil => simp
  | cons l rest ih =>
    simp only [List.foldl_cons, List.length_cons]
    rw [ih (metrics_line acc l)]
    have := metrics_line_adds_one acc l
    omega

/-- C9 — for every file content (and any extracted entity lists), the line
metrics partition the newline-split lines exactly: blank + comment + code +
docstring line counts sum to the total line count. -/
theorem calculate_metrics_partition (content : String) (imps : List ImportStatement)
    (funcs : List FunctionInfo) (classes : List ClassInfo) :
    (calculate_metrics content imps funcs classes).blank_lines +
      (calculate_metrics content imps funcs classes).comment_lines +
      (calculate_metrics content imps funcs classes).code_lines +
      (calculate_metrics content imps funcs classes).docstring_lines =
      (calculate_metrics content imps funcs classes).total_lines := by
  unfold calculate_metrics
  simp only []
  rw [metrics_fold_partition]
  simp

/-- Replacement of a one-character pattern by a one-character replacement is
a character map (given enough fuel). -/
theorem replace_single_eq_map (p r : Char) :
    ∀ (fuel : Nat) (s : List Char), s.length ≤ fuel →
      replaceCharsAux [p] [r] fuel s = s.map (fun c => if c = p then r else c) := by
  intro fuel
  induction fuel with
  | zero =>
    intro s hs
    have : s = [] := List.length_eq_zero.mp (Nat.le_zero.mp hs)
    subst this
    rfl
  | succ n ih =>
    intro s hs
    cases s with
    | nil => rfl
    | cons c cs =>
      simp only [replaceCharsAux, isPrefixChars, Bool.and_true]
      simp only [List.length_cons] at hs
      by_cases hc : p = c
      · rw [if_pos (by simp [hc])]
        simp only [List.length_cons, List.length_nil, List.drop_succ_cons,
          List.drop_zero, List.map_cons]
        rw [ih cs (by omega)]
        rw [if_pos hc.symm]
        rfl
      · rw [if_neg (by simp [hc])]
        simp only [List.map_cons]
        rw [ih cs (by omega)]
        rw [if_neg (fun h => hc h.symm)]

/-- `pyReplace` with one-character pattern and replacement maps the
characters of the string. -/
theorem pyReplace_single (s : String) (p r : Char) :
    (pyReplace s (String.mk [p]) (String.mk [r])).data =
      s.data.map (fun c => if c = p then r else c) := by
  unfold pyReplace
  exact replace_single_eq_map p r s.data.length s.data (le_refl _)

/-- C7 (amended) — `_clean_id` is the deterministic per-character map sending
each of `/`, `.`, `-`, `\` to `_`; consequently it is not injective: the
distinct paths "a/b" and "a.b" receive the same identifier. -/
theorem clean_id_amended :
    (∀ s : String, (clean_id s).data =
      s.data.map (fun c => if c = '/' ∨ c = '.' ∨ c = '-' ∨ c = '\\' then '_' else c)) ∧
    clean_id "a/b" = clean_id "a.b" ∧ "a/b" ≠ "a.b" := by
  refine ⟨?_, by decide, by decide⟩
  intro s
  have h1 : ("/" : String) = String.mk ['/'] := rfl
  have h2 : ("." : String) = String.mk ['.'] := rfl
  have h3 : ("-" : String) = String.mk ['-'] := rfl
  have h4 : ("\\" : String) = String.mk ['\\'] := rfl
  have h5 : ("_" : String) = String.mk ['_'] := rfl
  unfold clean_id
  rw [h1, h2, h3, h4, h5]
  rw [pyReplace_single, pyReplace_single, pyReplace_single, pyReplace_single]
  rw [List.map_map, List.map_map, List.map_map]
  apply List.map_congr_left
  intro c _
  by_cases hc1 : c = '/'
  · subst hc1; decide
  · by_cases hc2 : c = '.'
    · subst hc2; decide
    · by_cases hc3 : c = '-'
      · subst hc3; decide
      · by_cases hc4 : c = '\\'
        · subst hc4; decide
        · simp [Function.comp, hc1, hc2, hc3, hc4]

/-- C7 (counterexample) — the node-identifier mapping is not collision-free:
the distinct file paths "a/b" and "a.b" are both mapped to "a_b". -/
theorem clean_id_collision_counterexample :
    clean_id "a/b" = "a_b" ∧ clean_id "a.b" = "a_b" ∧ "a/b" ≠ "a.b" := by
  refine ⟨by decide, by decide, by decide⟩

/-- C3 — a relative import whose level exceeds the number of dotted segments
of the importing module resolves to nothing, and therefore contributes no
dependency edge when dependencies are resolved. -/
theorem resolve_import_level_exceeds (module_map : List (String × String))
    (imp : ImportStatement) (current_module : String)
    (h1 : 0 < imp.level) (h2 : (pySplit '.' current_module).length < imp.level) :
    resolve_import module_map imp current_module = none ∧
    ∀ (fp : String) (l1 l2 : List ImportStatement),
      resolve_dependencies module_map (some current_module) fp (l1 ++ imp :: l2) =
        resolve_dependencies module_map (some current_module) fp (l1 ++ l2) := by
  have hres : resolve_import module_map imp current_module = none := by
    unfold resolve_import
    simp only []
    rw [if_pos h1]
    by_cases hc : current_module = ""
    · rw [if_pos hc]
    · rw [if_neg hc, if_pos h2]
  refine ⟨hres, ?_⟩
  intro fp l1 l2
  unfold resolve_dependencies
  simp only []
  by_cases hc : current_module = ""
  · rw [if_pos hc, if_pos hc]
  · rw [if_neg hc, if_neg hc]
    rw [List.foldl_append, List.foldl_append, List.foldl_cons, hres]

/-- Witness for C3 at a concrete import of level 3 in a module of depth 2. -/
theorem resolve_import_level_exceeds_witness :
    0 < c3_example_import.level ∧
    (pySplit '.' "a.b").length < c3_example_import.level ∧
    resolve_import [] c3_example_import "a.b" = none :=
  ⟨by decide, by decide,
    (resolve_import_level_exceeds [] c3_example_import "a.b" (by decide) (by decide)).1⟩

/-- C8 — rendering the architecture map over an empty analysis cache (no
files, hence an empty dependency graph) returns the empty string. -/
theorem generate_architecture_map_empty
    (parse : String → Except (Nat × String) (List PyNode)) (st : ParserState)
    (h : st.file_analyses = []) :
    generate_architecture_map parse st none = "" := by
  unfold generate_architecture_map get_dependency_graph
  rw [h]
  simp

/-- Witness for C8 at the empty parser state. -/
theorem generate_architecture_map_empty_witness :
    empty_state.file_analyses = [] ∧ generate_architecture_map c5_parse empty_state none = "" :=
  ⟨rfl, generate_architecture_map_empty c5_parse empty_state rfl⟩

/-- A weighted walk with a pointwise sum of weights is the sum of the two
walks. -/
theorem node_weight_sum_add (w1 w2 : PyNode → Nat) :
    ∀ l : List PyNode,
      node_weight_sum (fun n => w1 n + w2 n) l =
        node_weight_sum w1 l + node_weight_sum w2 l := by
  intro l
  induction l using node_weight_sum.induct (fun n => w1 n + w2 n) <;>
    simp only [node_weight_sum] <;> omega

/-- C6 — cyclomatic complexity equals 1 plus the number of
if/while/for/async-for nodes, plus the number of exception handlers, plus
operand count minus one for each boolean chain, plus the number of
comprehension clauses, plus the number of comprehension filter conditions;
in particular a function body with none of these constructs has complexity
1, and a body whose only decision structure is one `if` with a two-operand
`and` in its test has complexity 3. -/
theorem cyclomatic_complexity_formula :
    (∀ body : List PyNode,
      calculate_cyclomatic_complexity body =
        1 + spec_decision_count body + spec_handler_count body + spec_boolop_extra body +
          spec_comp_clause_count body + spec_comp_filter_count body) ∧
    calculate_cyclomatic_complexity [PyNode.otherNode [PyNode.nameExpr "x"]] = 1 ∧
    calculate_cyclomatic_complexity
      [PyNode.ifStmt [PyNode.boolOp 2 [PyNode.nameExpr "a", PyNode.nameExpr "b"]]] = 3 := by
  refine ⟨?_, by simp [calculate_cyclomatic_complexity, node_weight_sum, cc_weight],
    by simp [calculate_cyclomatic_complexity, node_weight_sum, cc_weight]⟩
  intro body
  unfold calculate_cyclomatic_complexity spec_decision_count spec_handler_count
    spec_boolop_extra spec_comp_clause_count spec_comp_filter_count
  have e1 : cc_weight = fun n =>
      (fun n : PyNode =>
        match n with
        | .ifStmt _ => 1
        | .whileStmt _ => 1
        | .forStmt _ => 1
        | .asyncForStmt _ => 1
        | _ => 0) n +
      ((fun n : PyNode =>
        match n with
        | .exceptHandler _ => 1
        | _ => 0) n +
      ((fun n : PyNode =>
        match n with
        | .boolOp nv _ => nv - 1
        | _ => 0) n +
      ((fun n : PyNode =>
        match n with
        | .compClause _ _ => 1
        | _ => 0) n +
      (fun n : PyNode =>
        match n with
        | .compClause nf _ => nf
        | _ => 0) n))) := by
    funext n
    cases n <;> simp only [cc_weight] <;> omega
  rw [e1, node_weight_sum_add, node_weight_sum_add, node_weight_sum_add, node_weight_sum_add]
  omega

/-- Every import statement extracted from a tree without star-named plain
ones receives the wildcard issue of steward check 6 exactly when it is a
level-0 from-import naming `*`, not lexically nested directly under an `if`
or `try`, and not importing from `__future__`. -/
theorem extract_imports_wildcard_aux :
    ∀ (parent : Option String) (l : List PyNode),
      plain_star_imports l = [] →
      ∀ imp ∈ extract_imports_list parent l,
        (steward_wildcard_pred imp = true ↔
          (imp.level = 0 ∧ "*" ∈ imp.names ∧ imp.parent_node_type = none ∧
            imp.module ≠ some "__future__")) := by
  intro parent l
  induction parent, l using extract_imports_list.induct with
  | case1 parent =>
    intro _ imp hmem
    simp [extract_imports_list] at hmem
  | case2 parent m alias_list level ln rest ih =>
    intro hstar imp hmem
    have hstar2 : plain_star_imports rest = [] := by
      unfold plain_star_imports at hstar ⊢
      simp only [node_collect, List.nil_append] at hstar
      exact hstar
    rw [extract_imports_list] at hmem
    rcases List.mem_cons.mp hmem with rfl | hmem2
    · simp only [steward_wildcard_pred, classify_from_import]
      cases parent with
      | some s => simp
      | none =>
        simp only []
        by_cases h0 : level > 0
        · have hne : level ≠ 0 := by omega
          simp [h0, hne]
        · have h0' : level = 0 := by omega
          subst h0'
          by_cases hw : "*" ∈ alias_list.map Prod.fst
          · simp [hw]
          · by_cases ha : alias_list.filterMap (fun p => p.2.map (fun a => (p.1, a))) = []
            · simp [hw, ha]
            · simp [hw, ha]
    · exact ih hstar2 imp hmem2
  | case3 parent alias_list ln rest ih =>
    intro hstar imp hmem
    have hfree : (alias_list.filter (fun p => p.1 = "*")) = [] ∧
        plain_star_imports rest = [] := by
      unfold plain_star_imports at hstar ⊢
      simp only [node_collect, List.nil_append] at hstar
      rw [List.append_eq_nil] at hstar
      refine ⟨?_, hstar.2⟩
      have := hstar.1
      rwa [List.map_eq_nil_iff] at this
    rw [extract_imports_list] at hmem
    rcases List.mem_append.mp hmem with hmem1 | hmem2
    · obtain ⟨p, hp, rfl⟩ := List.mem_map.mp hmem1
      have hne : p.1 ≠ "*" := by
        intro he
        have hmf : p ∈ alias_list.filter (fun q => decide (q.1 = "*")) :=
          List.mem_filter.mpr ⟨hp, by simp [he]⟩
        rw [hfree.1] at hmf
        simp at hmf
      cases hp2 : p.2 <;>
        simp [steward_wildcard_pred, hp2, hne, Ne.symm hne]
    · exact ih hfree.2 imp hmem2
  | case4 parent nm a body rest ih1 ih2 =>
    intro hstar imp hmem
    have hsplit : plain_star_imports body = [] ∧ plain_star_imports rest = [] := by
      unfold plain_star_imports at hstar ⊢
      simp only [node_collect, List.nil_append] at hstar
      rw [List.append_eq_nil] at hstar
      exact hstar
    rw [extract_imports_list] at hmem
    rcases List.mem_append.mp hmem with h | h
    · exact ih1 hsplit.1 imp h
    · exact ih2 hsplit.2 imp h
  | case5 parent nm body rest ih1 ih2 =>
    intro hstar imp hmem
    have hsplit : plain_star_imports body = [] ∧ plain_star_imports rest = [] := by
      unfold plain_star_imports at hstar ⊢
      simp only [node_collect, List.nil_append] at hstar
      rw [List.append_eq_nil] at hstar
      exact hstar
    rw [extract_imports_list] at hmem
    rcases List.mem_append.mp hmem with h | h
    · exact ih1 hsplit.1 imp h
    · exact ih2 hsplit.2 imp h
  | case6 parent ts cs rest ih1 ih2 =>
    intro hstar imp hmem
    have hsplit : plain_star_imports cs = [] ∧ plain_star_imports rest = [] := by
      unfold plain_star_imports at hstar ⊢
      simp only [node_collect, List.nil_append] at hstar
      rw [List.append_eq_nil] at hstar
      exact hstar
    rw [extract_imports_list] at hmem
    rcases List.mem_append.mp hmem with h | h
    · exact ih1 hsplit.1 imp h
    · exact ih2 hsplit.2 imp h
  | case7 parent t cs rest ih1 ih2 =>
    intro hstar imp hmem
    have hsplit : plain_star_imports cs = [] ∧ plain_star_imports rest = [] := by
      unfold plain_star_imports at hstar ⊢
      simp only [node_collect, List.nil_append] at hstar
      rw [List.append_eq_nil] at hstar
      exact hstar
    rw [extract_imports_list] at hmem
    rcases List.mem_append.mp hmem with h | h
    · exact ih1 hsplit.1 imp h
    · exact ih2 hsplit.2 imp h
  | case8 parent cs rest ih1 ih2 =>
    intro hstar imp hmem
    have hsplit : plain_star_imports cs = [] ∧ plain_star_imports rest = [] := by
      unfold plain_star_imports at hstar ⊢
      simp only [node_collect, List.nil_append] at hstar
      rw [List.append_eq_nil] at hstar
      exact hstar
    rw [extract_imports_list] at hmem
    rcases List.mem_append.mp hmem with h | h
    · exact ih1 hsplit.1 imp h
    · exact ih2 hsplit.2 imp h
  | case9 parent cs rest ih1 ih2 =>
    intro hstar imp hmem
    have hsplit : plain_star_imports cs = [] ∧ plain_star_imports rest = [] := by
      unfold plain_star_imports at hstar ⊢
      simp only [node_collect, List.nil_append] at hstar
      rw [List.append_eq_nil] at hstar
      exact hstar
    rw [extract_imports_list] at hmem
    rcases List.mem_append.mp hmem with h | h
    · exact ih1 hsplit.1 imp h
    · exact ih2 hsplit.2 imp h
  | case10 parent cs rest ih1 ih2 =>
    intro hstar imp hmem
    have hsplit : plain_star_imports cs = [] ∧ plain_star_imports rest = [] := by
      unfold plain_star_imports at hstar ⊢
      simp only [node_collect, List.nil_append] at hstar
      rw [List.append_eq_nil] at hstar
      exact hstar
    rw [extract_imports_list] at hmem
    rcases List.mem_append.mp hmem with h | h
    · exact ih1 hsplit.1 imp h
    · exact ih2 hsplit.2 imp h
  | case11 parent cs rest ih1 ih2 =>
    intro hstar imp hmem
    have hsplit : plain_star_imports cs = [] ∧ plain_star_imports rest = [] := by
      unfold plain_star_imports at hstar ⊢
      simp only [node_collect, List.nil_append] at hstar
      rw [List.append_eq_nil] at hstar
      exact hstar
    rw [extract_imports_list] at hmem
    rcases List.mem_append.mp hmem with h | h
    · exact ih1 hsplit.1 imp h
    · exact ih2 hsplit.2 imp h
  | case12 parent cs rest ih1 ih2 =>
    intro hstar imp hmem
    have hsplit : plain_star_imports cs = [] ∧ plain_star_imports rest = [] := by
      unfold plain_star_imports at hstar ⊢
      simp only [node_collect, List.nil_append] at hstar
      rw [List.append_eq_nil] at hstar
      exact hstar
    rw [extract_imports_list] at hmem
    rcases List.mem_append.mp hmem with h | h
    · exact ih1 hsplit.1 imp h
    · exact ih2 hsplit.2 imp h
  | case13 parent cs rest ih1 ih2 =>
    intro hstar imp hmem
    have hsplit : plain_star_imports cs = [] ∧ plain_star_imports rest = [] := by
      unfold plain_star_imports at hstar ⊢
      simp only [node_collect, List.nil_append] at hstar
      rw [List.append_eq_nil] at hstar
      exact hstar
    rw [extract_imports_list] at hmem
    rcases List.mem_append.mp hmem with h | h
    · exact ih1 hsplit.1 imp h
    · exact ih2 hsplit.2 imp h
  | case14 parent nv cs rest ih1 ih2 =>
    intro hstar imp hmem
    have hsplit : plain_star_imports cs = [] ∧ plain_star_imports rest = [] := by
      unfold plain_star_imports at hstar ⊢
      simp only [node_collect, List.nil_append] at hstar
      rw [List.append_eq_nil] at hstar
      exact hstar
    rw [extract_imports_list] at hmem
    rcases List.mem_append.mp hmem with h | h
    · exact ih1 hsplit.1 imp h
    · exact ih2 hsplit.2 imp h
  | case15 parent nf cs rest ih1 ih2 =>
    intro hstar imp hmem
    have hsplit : plain_star_imports cs = [] ∧ plain_star_imports rest = [] := by
      unfold plain_star_imports at hstar ⊢
      simp only [node_collect, List.nil_append] at hstar
      rw [List.append_eq_nil] at hstar
      exact hstar
    rw [extract_imports_list] at hmem
    rcases List.mem_append.mp hmem with h | h
    · exact ih1 hsplit.1 imp h
    · exact ih2 hsplit.2 imp h
  | case16 parent id rest ih =>
    intro hstar imp hmem
    have hstar2 : plain_star_imports rest = [] := by
      unfold plain_star_imports at hstar ⊢
      simp only [node_collect, List.nil_append] at hstar
      exact hstar
    rw [extract_imports_list] at hmem
    exact ih hstar2 imp hmem
  | case17 parent b cs rest ih1 ih2 =>
    intro hstar imp hmem
    have hsplit : plain_star_imports cs = [] ∧ plain_star_imports rest = [] := by
      unfold plain_star_imports at hstar ⊢
      simp only [node_collect, List.nil_append] at hstar
      rw [List.append_eq_nil] at hstar
      exact hstar
    rw [extract_imports_list] at hmem
    rcases List.mem_append.mp hmem with h | h
    · exact ih1 hsplit.1 imp h
    · exact ih2 hsplit.2 imp h
  | case18 parent cs rest ih1 ih2 =>
    intro hstar imp hmem
    have hsplit : plain_star_imports cs = [] ∧ plain_star_imports rest = [] := by
      unfold plain_star_imports at hstar ⊢
      simp only [node_collect, List.nil_append] at hstar
      rw [List.append_eq_nil] at hstar
      exact hstar
    rw [extract_imports_list] at hmem
    rcases List.mem_append.mp hmem with h | h
    · exact ih1 hsplit.1 imp h
    · exact ih2 hsplit.2 imp h

/-- C2 (amended) — for every analyzed tree (with no star-named plain-import
alias, which the Python grammar cannot produce), the steward emits its
wildcard_import issue for an extracted import exactly when that import is a
level-0 from-import with `*` among its names, whose statement is not
lexically nested directly inside an `if` or `try` block, and whose source
module is not `__future__`.  A nested wildcard import is reclassified
`conditional` and receives no wildcard_import issue. -/
theorem steward_wildcard_issue_iff (tree : List PyNode) (imp : ImportStatement)
    (hstar : plain_star_imports tree = [])
    (hmem : imp ∈ extract_imports tree) :
    steward_wildcard_pred imp = true ↔
      (imp.level = 0 ∧ "*" ∈ imp.names ∧ imp.parent_node_type = none ∧
        imp.module ≠ some "__future__") :=
  extract_imports_wildcard_aux none tree hstar imp hmem

/-- Witness for C2 at the one-statement module `from os import *`. -/
theorem steward_wildcard_issue_iff_witness :
    plain_star_imports c2_top_tree = [] ∧
    c2_top_import ∈ extract_imports c2_top_tree ∧
    (steward_wildcard_pred c2_top_import = true ↔
      (c2_top_import.level = 0 ∧ "*" ∈ c2_top_import.names ∧
        c2_top_import.parent_node_type = none ∧
        c2_top_import.module ≠ some "__future__")) :=
  ⟨by simp [plain_star_imports, node_collect, c2_top_tree],
   by simp [extract_imports, extract_imports_list, c2_top_tree, c2_top_import,
     classify_from_import],
   steward_wildcard_issue_iff c2_top_tree c2_top_import
     (by simp [plain_star_imports, node_collect, c2_top_tree])
     (by simp [extract_imports, extract_imports_list, c2_top_tree, c2_top_import,
       classify_from_import])⟩

/-- C2 (counterexample) — a non-future wildcard import nested inside an `if`
block is extracted (with `*` among its names and a non-`__future__` module),
yet steward check 6 emits no wildcard_import issue for the file: the import
was reclassified as conditional. -/
theorem steward_wildcard_nested_counterexample :
    (∃ imp ∈ extract_imports c2_nested_tree,
      "*" ∈ imp.names ∧ imp.module = some "os" ∧ imp.is_future_import = false ∧
        imp.import_type = ImportType.conditional) ∧
    steward_wildcard_issues "f.py" (extract_imports c2_nested_tree) = [] := by
  constructor
  · refine ⟨⟨some "os", ["*"], [], 0, ImportType.conditional, 2, false, some "If"⟩, ?_, ?_⟩
    · simp [extract_imports, extract_imports_list, c2_nested_tree, classify_from_import]
    · simp
  · simp [steward_wildcard_issues, steward_wildcard_pred, extract_imports,
      extract_imports_list, c2_nested_tree, classify_from_import]

/-- Overwriting one cache key leaves lookups of every other key unchanged. -/
theorem lookup_setEntry_ne {α : Type} (l : List (String × α)) (k : String) (v : α)
    (p : String) (h : p ≠ k) :
    List.lookup p (setEntry l k v) = List.lookup p l := by
  have hbeq : (p == k) = false := beq_eq_false_iff_ne.mpr h
  have hmap : ∀ (t : List (String × α)),
      List.lookup p (t.map (fun q => if q.1 = k then (k, v) else q)) =
        List.lookup p t := by
    intro t
    induction t with
    | nil => rfl
    | cons e t ih =>
      by_cases he : e.1 = k
      · rw [List.map_cons, if_pos he]
        have h2 : (p == e.1) = false := by rw [he]; exact hbeq
        simp only [List.lookup, hbeq, h2]
        exact ih
      · rw [List.map_cons, if_neg he]
        simp only [List.lookup]
        cases hpe : p == e.1
        · exact ih
        · rfl
  have happ : ∀ (t : List (String × α)),
      List.lookup p (t ++ [(k, v)]) = List.lookup p t := by
    intro t
    induction t with
    | nil => simp [List.lookup, hbeq]
    | cons e t ih =>
      simp only [List.cons_append, List.lookup]
      cases hpe : p == e.1
      · exact ih
      · rfl
  unfold setEntry
  by_cases hs : (List.lookup k l).isSome
  · rw [if_pos hs]
    exact hmap l
  · rw [if_neg hs]
    exact happ l

/-- C5 — analyzing an existing file whose content fails to parse produces an
analysis whose only error is the "Syntax error at line N: message" entry,
with empty imports, functions, classes, globals and dependency set (no
extraction is attempted), the module name still derived from the path, the
failed-file counter incremented, and every other file's cached analysis
untouched. -/
theorem analyze_file_syntax_error
    (parse : String → Except (Nat × String) (List PyNode)) (st : ParserState)
    (fp : String) (f : SrcFile) (ln : Nat) (msg : String)
    (hf : List.lookup fp st.fs = some f)
    (hp : parse f.content = Except.error (ln, msg)) :
    (analyze_file parse st fp).1.errors =
      ["Syntax error at line " ++ toString ln ++ ": " ++ msg] ∧
    (analyze_file parse st fp).1.imports = [] ∧
    (analyze_file parse st fp).1.functions = [] ∧
    (analyze_file parse st fp).1.classes = [] ∧
    (analyze_file parse st fp).1.global_variables = [] ∧
    (analyze_file parse st fp).1.dependencies = [] ∧
    (analyze_file parse st fp).1.module_name = path_to_module fp ∧
    (analyze_file parse st fp).2.failed_files = st.failed_files + 1 ∧
    ∀ p, p ≠ fp →
      List.lookup p (analyze_file parse st fp).2.file_analyses =
        List.lookup p st.file_analyses := by
  have hcontent : (if f.utf8Ok then (f.content, "utf-8", ([] : List String))
      else (f.content, "latin-1", ["File uses non-UTF-8 encoding"])).1 = f.content := by
    by_cases hu : f.utf8Ok <;> simp [hu]
  unfold analyze_file
  rw [hf]
  simp only []
  rw [hcontent, hp]
  refine ⟨rfl, rfl, rfl, rfl, rfl, rfl, rfl, rfl, ?_⟩
  intro p hne
  exact lookup_setEntry_ne st.file_analyses fp _ p hne

/-- Witness for C5 at a one-file state whose parse always fails at line 3. -/
theorem analyze_file_syntax_error_witness :
    List.lookup "a.py" c5_state.fs = some c5_file ∧
    c5_parse c5_file.content = Except.error (3, "invalid syntax") ∧
    (analyze_file c5_parse c5_state "a.py").1.errors =
      ["Syntax error at line " ++ toString 3 ++ ": " ++ "invalid syntax"] ∧
    (analyze_file c5_parse c5_state "a.py").1.imports = [] ∧
    (analyze_file c5_parse c5_state "a.py").2.failed_files =
      c5_state.failed_files + 1 :=
  ⟨rfl, rfl,
    (analyze_file_syntax_error c5_parse c5_state "a.py" c5_file 3 "invalid syntax"
      rfl rfl).1,
    (analyze_file_syntax_error c5_parse c5_state "a.py" c5_file 3 "invalid syntax"
      rfl rfl).2.1,
    (analyze_file_syntax_error c5_parse c5_state "a.py" c5_file 3 "invalid syntax"
      rfl rfl).2.2.2.2.2.2.2.1⟩

/-- C10 — when the (possibly freshly computed) analysis of a file carries no
syntax tree, `find_unused_imports` returns the empty list. -/
theorem find_unused_imports_no_tree
    (parse : String → Except (Nat × String) (List PyNode)) (st : ParserState)
    (fp : String)
    (h : ∀ a, List.lookup fp (lookup_or_analyze parse st fp).file_analyses = some a →
      a.ast_tree = none) :
    (find_unused_imports parse st fp).1 = [] := by
  unfold find_unused_imports
  simp only []
  split
  · rfl
  · split
    · rfl
    · simp_all

/-- Witness for C10: a file missing from the file system is analyzed on
demand, is not cached (the source returns early), and the unused-import
query returns the empty list. -/
theorem find_unused_imports_no_tree_witness :
    (∀ a, List.lookup "missing.py"
        (lookup_or_analyze c5_parse empty_state "missing.py").file_analyses = some a →
      a.ast_tree = none) ∧
    (find_unused_imports c5_parse empty_state "missing.py").1 = [] := by
  have hstep : (lookup_or_analyze c5_parse empty_state "missing.py").file_analyses = [] := rfl
  refine ⟨?_, ?_⟩
  · intro a ha
    rw [hstep] at ha
    simp at ha
  · exact find_unused_imports_no_tree c5_parse empty_state "missing.py"
      (by intro a ha; rw [hstep] at ha; simp at ha)

/-- Everything already visited stays in the expansion result. -/
theorem expand_mem_visited (g : List (String × List String)) (tv vis : List String) :
    ∀ x ∈ vis, x ∈ expand g tv vis := by
  induction tv, vis using expand.induct g with
  | case1 vis =>
    intro x hx
    rw [expand]
    exact hx
  | case2 vis current rest hc ih =>
    intro x hx
    rw [expand]
    simp only [if_pos hc]
    exact ih x hx
  | case3 vis current rest hc ih =>
    intro x hx
    rw [expand]
    simp only [if_neg hc]
    exact ih x (List.mem_cons_of_mem _ hx)

/-- Every pending worklist entry ends up in the expansion result. -/
theorem expand_mem_toVisit (g : List (String × List String)) (tv vis : List String) :
    ∀ x ∈ tv, x ∈ expand g tv vis := by
  induction tv, vis using expand.induct g with
  | case1 vis =>
    intro x hx
    simp at hx
  | case2 vis current rest hc ih =>
    intro x hx
    rw [expand]
    simp only [if_pos hc]
    rcases List.mem_cons.mp hx with rfl | hx2
    · exact expand_mem_visited g rest vis x hc
    · exact ih x hx2
  | case3 vis current rest hc ih =>
    intro x hx
    rw [expand]
    simp only [if_neg hc]
    rcases List.mem_cons.mp hx with rfl | hx2
    · exact expand_mem_visited g _ _ x (List.mem_cons_self _ _)
    · exact ih x (List.mem_append_right _ hx2)

/-- Every element of the expansion result was already visited or is
reachable from a worklist entry along reverse-dependency steps. -/
theorem expand_sound (g : List (String × List String)) :
    ∀ (tv vis : List String) (x : String), x ∈ expand g tv vis →
      x ∈ vis ∨ ∃ d ∈ tv, Relation.ReflTransGen (graph_step g) d x := by
  intro tv vis
  induction tv, vis using expand.induct g with
  | case1 vis =>
    intro x hx
    rw [expand] at hx
    exact Or.inl hx
  | case2 vis current rest hc ih =>
    intro x hx
    rw [expand] at hx
    simp only [if_pos hc] at hx
    rcases ih x hx with h | ⟨d, hd, hr⟩
    · exact Or.inl h
    · exact Or.inr ⟨d, List.mem_cons_of_mem _ hd, hr⟩
  | case3 vis current rest hc ih =>
    intro x hx
    rw [expand] at hx
    simp only [if_neg hc] at hx
    rcases ih x hx with h | ⟨d, hd, hr⟩
    · rcases List.mem_cons.mp h with rfl | h2
      · exact Or.inr ⟨x, List.mem_cons_self _ _, Relation.ReflTransGen.refl⟩
      · exact Or.inl h2
    · rcases List.mem_append.mp hd with h2 | h2
      · refine Or.inr ⟨current, List.mem_cons_self _ _, ?_⟩
        exact Relation.ReflTransGen.head (List.mem_reverse.mp h2) hr
      · exact Or.inr ⟨d, List.mem_cons_of_mem _ h2, hr⟩

/-- If the visited set is closed under reverse steps modulo the worklist,
the expansion result is closed under reverse steps. -/
theorem expand_closed (g : List (String × List String)) :
    ∀ (tv vis : List String),
      (∀ v ∈ vis, ∀ n ∈ pyLookup g v, n ∈ vis ∨ n ∈ tv) →
      ∀ v ∈ expand g tv vis, ∀ n ∈ pyLookup g v, n ∈ expand g tv vis := by
  intro tv vis
  induction tv, vis using expand.induct g with
  | case1 vis =>
    intro hinv v hv n hn
    rw [expand] at hv ⊢
    rcases hinv v hv n hn with h | h
    · exact h
    · simp at h
  | case2 vis current rest hc ih =>
    intro hinv v hv n hn
    rw [expand] at hv ⊢
    simp only [if_pos hc] at hv ⊢
    refine ih ?_ v hv n hn
    intro v2 hv2 n2 hn2
    rcases hinv v2 hv2 n2 hn2 with h | h
    · exact Or.inl h
    · rcases List.mem_cons.mp h with rfl | h2
      · exact Or.inl hc
      · exact Or.inr h2
  | case3 vis current rest hc ih =>
    intro hinv v hv n hn
    rw [expand] at hv ⊢
    simp only [if_neg hc] at hv ⊢
    refine ih ?_ v hv n hn
    intro v2 hv2 n2 hn2
    rcases List.mem_cons.mp hv2 with rfl | hv3
    · exact Or.inr (List.mem_append_left _ (List.mem_reverse.mpr hn2))
    · rcases hinv v2 hv3 n2 hn2 with h | h
      · exact Or.inl (List.mem_cons_of_mem _ h)
      · rcases List.mem_cons.mp h with rfl | h2
        · exact Or.inl (List.mem_cons_self _ _)
        · exact Or.inr (List.mem_append_right _ h2)

/-- The expansion result has no duplicates when the visited set has none. -/
theorem expand_nodup (g : List (String × List String)) :
    ∀ (tv vis : List String), vis.Nodup → (expand g tv vis).Nodup := by
  intro tv vis
  induction tv, vis using expand.induct g with
  | case1 vis =>
    intro h
    rw [expand]
    exact h
  | case2 vis current rest hc ih =>
    intro h
    rw [expand]
    simp only [if_pos hc]
    exact ih h
  | case3 vis current rest hc ih =>
    intro h
    rw [expand]
    simp only [if_neg hc]
    exact ih (List.nodup_cons.mpr ⟨hc, h⟩)

/-- The expansion from the direct dependents computes exactly the set of
nodes reachable from a direct dependent along the reverse-dependency
relation. -/
theorem expand_reach_iff (g : List (String × List String)) (direct : List String)
    (x : String) :
    x ∈ expand g direct.reverse [] ↔
      ∃ d ∈ direct, Relation.ReflTransGen (graph_step g) d x := by
  constructor
  · intro hx
    rcases expand_sound g direct.reverse [] x hx with h | ⟨d, hd, hr⟩
    · simp at h
    · exact ⟨d, List.mem_reverse.mp hd, hr⟩
  · rintro ⟨d, hd, hr⟩
    induction hr with
    | refl => exact expand_mem_toVisit g _ _ d (List.mem_reverse.mpr hd)
    | tail hab hbc ihr =>
      exact expand_closed g direct.reverse []
        (by intro v hv; exact absurd hv (by simp)) _ ihr _ hbc

/-- Closed form of `get_file_impact_analysis`: the absent-file branch agrees
with the general formula because the lookup, the expansion and the sort are
all empty there. -/
theorem get_file_impact_analysis_eq (st : ParserState) (fp : String) :
    get_file_impact_analysis st fp =
      { file := fp
        direct_dependents := pySortStr (pyLookup st.reverse_dependency_graph fp)
        transitive_dependents := pySortStr
          ((expand st.reverse_dependency_graph
              (pyLookup st.reverse_dependency_graph fp).reverse []).filter
            (fun x => decide (x ∉ pyLookup st.reverse_dependency_graph fp)))
        total_impact := (expand st.reverse_dependency_graph
          (pyLookup st.reverse_dependency_graph fp).reverse []).length } := by
  unfold get_file_impact_analysis
  by_cases h : (st.reverse_dependency_graph.find? (fun p => p.1 == fp)).isNone = true
  · rw [if_pos h]
    have hnil : pyLookup st.reverse_dependency_graph fp = [] := by
      unfold pyLookup
      cases hf : st.reverse_dependency_graph.find? (fun p => p.1 == fp) with
      | none => rfl
      | some p => rw [hf] at h; simp at h
    have he : expand st.reverse_dependency_graph ([] : List String) [] = [] := by
      rw [expand]
    rw [hnil, List.reverse_nil, he]
    rfl
  · rw [if_neg h]

/-- C1 (amended): for every parser state and file, `get_file_impact_analysis`
returns sorted `direct_dependents` equal (as a set) to the reverse-map entry,
sorted `transitive_dependents` that contain exactly the files reachable from a
direct dependent along reverse-dependency edges minus the direct dependents
themselves — with no exclusion of the queried file, which therefore appears in
the result whenever it lies on a dependency cycle — and a `total_impact`
that counts, without duplicates, all files reachable from a direct dependent
(again including the queried file itself on a cycle). -/
theorem get_file_impact_analysis_amended (st : ParserState) (fp : String) :
    (∀ x, x ∈ (get_file_impact_analysis st fp).direct_dependents ↔
      x ∈ pyLookup st.reverse_dependency_graph fp) ∧
    List.Sorted (fun a b => strLe a b = true)
      (get_file_impact_analysis st fp).direct_dependents ∧
    List.Sorted (fun a b => strLe a b = true)
      (get_file_impact_analysis st fp).transitive_dependents ∧
    (∀ x, x ∈ (get_file_impact_analysis st fp).transitive_dependents ↔
      ((∃ d ∈ pyLookup st.reverse_dependency_graph fp,
          Relation.ReflTransGen (graph_step st.reverse_dependency_graph) d x) ∧
        x ∉ pyLookup st.reverse_dependency_graph fp)) ∧
    (∃ l : List String, l.Nodup ∧
      (∀ x, x ∈ l ↔ ∃ d ∈ pyLookup st.reverse_dependency_graph fp,
        Relation.ReflTransGen (graph_step st.reverse_dependency_graph) d x) ∧
      (get_file_impact_analysis st fp).total_impact = l.length) := by
  rw [get_file_impact_analysis_eq]
  refine ⟨?_, pySortStr_sorted _, pySortStr_sorted _, ?_, ?_⟩
  · intro x
    exact pySortStr_mem _ x
  · intro x
    rw [pySortStr_mem, List.mem_filter]
    constructor
    · rintro ⟨hx, hnd⟩
      refine ⟨(expand_reach_iff _ _ x).mp hx, ?_⟩
      simpa using hnd
    · rintro ⟨hr, hnd⟩
      exact ⟨(expand_reach_iff _ _ x).mpr hr, by simpa using hnd⟩
  · refine ⟨expand st.reverse_dependency_graph
      (pyLookup st.reverse_dependency_graph fp).reverse [], ?_, ?_, rfl⟩
    · exact expand_nodup _ _ _ List.nodup_nil
    · intro x
      exact expand_reach_iff _ _ x

/-- The queried file is not excluded from its own impact analysis: on the
two-cycle a.py <-> b.py, querying a.py reports a.py itself as a transitive
dependent and counts it in `total_impact`. -/
theorem get_file_impact_analysis_self_counterexample :
    "a.py" ∈ (get_file_impact_analysis c1_state "a.py").transitive_dependents ∧
    (get_file_impact_analysis c1_state "a.py").total_impact = 2 := by
  rw [get_file_impact_analysis_eq]
  have h1 : pyLookup c1_state.reverse_dependency_graph "a.py" = ["b.py"] := rfl
  have h2 : expand c1_state.reverse_dependency_graph
      (["b.py"] : List String).reverse [] = ["a.py", "b.py"] := by
    simp [expand, pyLookup, c1_state]
  rw [h1, h2]
  constructor
  · rw [pySortStr_mem, List.mem_filter]
    refine ⟨by simp, by simp⟩
  · rfl

/-- Walking a chain from any of its members to its last element yields a
reflexive-transitive path. -/
theorem chain_mem_reflTransGen {α : Type} (r : α → α → Prop) :
    ∀ (l : List α) (x z : α), List.Chain' r l → x ∈ l →
      l.getLast? = some z → Relation.ReflTransGen r x z := by
  intro l
  induction l with
  | nil =>
    intro x z _ hx _
    simp at hx
  | cons a t ih =>
    intro x z hchain hx hlast
    cases t with
    | nil =>
      simp at hx hlast
      subst hx
      subst hlast
      exact Relation.ReflTransGen.refl
    | cons b t2 =>
      rw [List.getLast?_cons_cons] at hlast
      have hch := List.chain'_cons.mp hchain
      rcases List.mem_cons.mp hx with rfl | hx2
      · exact Relation.ReflTransGen.head hch.1
          (ih b z hch.2 (List.mem_cons_self _ _) hlast)
      · exact ih x z hch.2 hx2 hlast

/-- Soundness of the DFS: whenever `find_cycle_aux` reports a cycle, the
dependency graph really has a node reachable from itself in at least one
step.  The invariants say that `path` is a chain of forward edges ending at
the current node and that the recursion stack lies on the path. -/
theorem find_cycle_aux_sound (g : List (String × List String))
    (node : String) (k : Nat) (path visited recStack : List String) :
    path.getLast? = some node →
    List.Chain' (graph_step g) path →
    (∀ x ∈ recStack, x ∈ path) →
    ∀ c, (find_cycle_aux g node k path visited recStack).val.1 = some c →
    ∃ x, Relation.TransGen (graph_step g) x x := by
  induction node, k, path, visited, recStack using find_cycle_aux.induct g with
  | case1 node k path visited recStack hk nb hnv rc c0 hsome ih1 ih2 =>
    intro hlast hchain hsub c hres
    have hmem : ((pyLookup g node).getD k "") ∈ pyLookup g node := by
      rw [List.getD_eq_getElem _ _ hk]
      exact List.getElem_mem hk
    refine ih1 (List.getLast?_concat _) ?_ ?_ c0 hsome
    · rw [List.chain'_append]
      refine ⟨hchain, List.chain'_singleton _, ?_⟩
      intro x hx y hy
      rw [hlast] at hx
      simp only [Option.mem_def, List.head?_cons, Option.some.injEq] at hx hy
      subst hx
      subst hy
      exact hmem
    · intro x hx
      rcases List.mem_cons.mp hx with rfl | hx2
      · exact List.mem_append_right _ (List.mem_singleton_self _)
      · exact List.mem_append_left _ (hsub x hx2)
  | case2 node k path visited recStack hk nb hnv rc hnone ihc1 ihc2 ihs1 ihs2 =>
    intro hlast hchain hsub c hres
    rw [find_cycle_aux.eq_def] at hres
    rw [dif_pos hk] at hres
    simp only [] at hres
    rw [dif_pos hnv] at hres
    have hnone2 : (find_cycle_aux g ((pyLookup g node).getD k "") 0
        (path ++ [(pyLookup g node).getD k ""])
        ((pyLookup g node).getD k "" :: visited)
        ((pyLookup g node).getD k "" :: recStack)).val.1 = none := hnone
    rw [hnone2] at hres
    exact ihs2 hlast hchain hsub c hres
  | case3 node k path visited recStack hk nb hnv hrs =>
    intro hlast hchain hsub c hres
    have hmem : ((pyLookup g node).getD k "") ∈ pyLookup g node := by
      rw [List.getD_eq_getElem _ _ hk]
      exact List.getElem_mem hk
    have hp : ((pyLookup g node).getD k "") ∈ path := hsub _ hrs
    have hrtg := chain_mem_reflTransGen (graph_step g) path _ node hchain hp hlast
    exact ⟨_, Relation.TransGen.tail' hrtg hmem⟩
  | case4 node k path visited recStack hk nb hnv hrs ih =>
    intro hlast hchain hsub c hres
    rw [find_cycle_aux.eq_def] at hres
    rw [dif_pos hk] at hres
    simp only [] at hres
    rw [dif_neg hnv] at hres
    rw [if_neg hrs] at hres
    exact ih hlast hchain hsub c hres
  | case5 node k path visited recStack hk =>
    intro hlast hchain hsub c hres
    rw [find_cycle_aux.eq_def] at hres
    rw [dif_neg hk] at hres
    simp at hres

/-- On an acyclic forward graph every DFS launch returns no cycle, so the
fold over the nodes accumulates nothing. -/
theorem find_circular_acyclic (g : List (String × List String))
    (hacyc : ∀ x, ¬ Relation.TransGen (graph_step g) x x) :
    find_circular_dependencies g = [] := by
  have hnone : ∀ (node : String) (acc1 : List String),
      (find_cycle_aux g node 0 [node] (node :: acc1) [node]).val.1 = none := by
    intro node acc1
    cases hr : (find_cycle_aux g node 0 [node] (node :: acc1) [node]).val.1 with
    | none => rfl
    | some c =>
      exfalso
      rcases find_cycle_aux_sound g node 0 [node] (node :: acc1) [node] rfl
        (List.chain'_singleton _) (fun x hx => hx) c hr with ⟨x, hx⟩
      exact hacyc x hx
  have hfold : ∀ (l : List String) (acc : List String × List (List String)),
      (l.foldl (fun (acc : List String × List (List String)) node =>
        if node ∈ acc.1 then acc
        else
          let r := (find_cycle_aux g node 0 [node] (node :: acc.1) [node]).val
          match r.1 with
          | some cycle => (r.2, if cycle ∈ acc.2 then acc.2 else acc.2 ++ [cycle])
          | none => (r.2, acc.2)) acc).2 = acc.2 := by
    intro l
    induction l with
    | nil =>
      intro acc
      rfl
    | cons a t ih =>
      intro acc
      rw [List.foldl_cons, ih]
      by_cases ha : a ∈ acc.1
      · rw [if_pos ha]
      · rw [if_neg ha]
        simp only []
        rw [hnone a acc.1]
  exact hfold (g.map Prod.fst) ([], [])

/-- C4: `find_circular_dependencies` returns the empty list on every acyclic
forward dependency graph, and on the two-node graph with exactly the edges
A→B and B→A it returns the single cycle ["A", "B", "A"], whose node set is
exactly \x7bA, B\x7d. -/
theorem find_circular_dependencies_correct :
    (∀ g : List (String × List String),
      (∀ x, ¬ Relation.TransGen (graph_step g) x x) →
      find_circular_dependencies g = []) ∧
    find_circular_dependencies two_cycle_graph = [["A", "B", "A"]] ∧
    (∀ x, x ∈ (["A", "B", "A"] : List String) ↔ x = "A" ∨ x = "B") := by
  refine ⟨find_circular_acyclic, ?_, by intro x; simp; tauto⟩
  have hB : (find_cycle_aux two_cycle_graph
      ((pyLookup two_cycle_graph "A").getD 0 "") 0
      (["A"] ++ [(pyLookup two_cycle_graph "A").getD 0 ""])
      ((pyLookup two_cycle_graph "A").getD 0 "" :: ["A"])
      ((pyLookup two_cycle_graph "A").getD 0 "" :: ["A"])).val
      = (some ["A", "B", "A"], ["B", "A"]) := by
    rw [find_cycle_aux.eq_def]
    decide
  have hA : (find_cycle_aux two_cycle_graph "A" 0 ["A"] ["A"] ["A"]).val
      = (some ["A", "B", "A"], ["B", "A"]) := by
    rw [find_cycle_aux.eq_def]
    simp only []
    nth_rewrite 1 [hB]
    simp only []
    rw [dif_pos (by decide)]
    rw [dif_pos (by decide)]
    simp only []
    rw [hB]
  have hA1 : (find_cycle_aux two_cycle_graph "A" 0 ["A"] ["A"] ["A"]).val.1
      = some ["A", "B", "A"] := by rw [hA]
  have hA2 : (find_cycle_aux two_cycle_graph "A" 0 ["A"] ["A"] ["A"]).val.2
      = ["B", "A"] := by rw [hA]
  have hm : List.map Prod.fst two_cycle_graph = ["A", "B"] := rfl
  simp [find_circular_dependencies, hm, hA1, hA2]

/-- The acyclic part of C4 instantiated on the empty graph, together with the
concrete two-cycle result. -/
theorem find_circular_dependencies_correct_witness :
    find_circular_dependencies [] = [] ∧
    find_circular_dependencies two_cycle_graph = [["A", "B", "A"]] :=
  ⟨find_circular_dependencies_correct.1 []
    (by
      intro x h
      cases h with
      | single h1 => exact absurd h1 (by simp [graph_step, pyLookup])
      | tail h1 h2 => exact absurd h2 (by simp [graph_step, pyLookup])),
   find_circular_dependencies_correct.2.1⟩
